import Mathlib

/-
Verification of the ai2thor controller core (ai2thor/controller.py):
the session controller handshake (Controller.step), the breadth-first grid
exploration (BFSController.queue_step / start_search / search_all_closed),
the flood-fill connectivity check (has_islands), pruning (prune_points) and
the path planner (shortest_plan, plan_rotations, plan_horizons).

Modelling conventions:
* Python floats are idealized as exact rationals.
* Python float formatting ("%0.1f", "-0.0" included) is modelled as a sign
  flag paired with the value rounded half-to-even at the given scale.
* Comparisons of Euclidean distances (math.sqrt) against nonnegative bounds
  are embedded as comparisons of squared distances, which is equivalent
  since sqrt is monotone.
* The simulated engine is an external collaborator (spec section 6); it is
  modelled as a function-valued parameter.  Loops driven by the engine are
  embedded with explicit fuel; theorems hold for every fuel value.
-/

/-- Round half to even (Python round() and C printf-style float formatting). -/
def rhe (q : ℚ) : ℤ :=
  let f := ⌊q⌋
  if q - f < 1/2 then f
  else if q - f > 1/2 then f + 1
  else if Even f then f else f + 1

/-- One formatted fixed-point field: the sign of the value (so that "-0.0"
and "0.0" stay distinct, as the source compares formatted strings) together
with the value scaled by `scale` and rounded half-to-even. -/
def fmtFixed (scale : ℚ) (x : ℚ) : Bool × ℤ :=
  (decide (x < 0), rhe (scale * x))

/-- Source: key_for_point(x, z) = "%0.1f %0.1f" % (x, z). -/
def key_for_point (x z : ℚ) : (Bool × ℤ) × (Bool × ℤ) :=
  (fmtFixed 10 x, fmtFixed 10 z)

/-- A metadata agent position (x, y, z). -/
structure Pt3 where
  x : ℚ
  y : ℚ
  z : ℚ
deriving DecidableEq, Repr

/-- A dict carrying only x and z coordinates. -/
structure Pt2 where
  x : ℚ
  z : ℚ
deriving DecidableEq, Repr

def Pt3.xz (p : Pt3) : Pt2 := ⟨p.x, p.z⟩

/-- Square of the source's distance(point1, point2) (x-z Euclidean). -/
def distanceSq (p q : Pt2) : ℚ := (p.x - q.x)^2 + (p.z - q.z)^2

/-- Square of the x-z distance between two agent positions. -/
def distXZSq (p q : Pt3) : ℚ := distanceSq p.xz q.xz

/-- BFSController.grid_size (set to 0.25 in __init__ and Initialize). -/
def grid_size : ℚ := 1/4

/-! ## Session controller (Controller.reset / Controller.step)

The rendezvous channel is a pair of capacity-one queues; `step` places the
action on the response queue, the engine-facing thread answers on the
request queue, and `step` consumes that answer.  The engine is modelled as
a function from actions to events; the `sent` field logs every payload
placed on the response channel so that "nothing crossed the channel" is
expressible.  Action payload types are abstract (the numpy-scalar
normalization is the identity on abstract payloads). -/

/-- The part of an Event the session-controller claims depend on; `rest`
abstracts all remaining metadata fields (copied verbatim by the json
round-trip in step's rejection path). -/
structure EventData (α : Type) where
  lastActionSuccess : Bool
  errorMessage : String
  rest : α
deriving DecidableEq, Repr

structure Event (α ι : Type) where
  metadata : EventData α
  image : ι
deriving DecidableEq, Repr

/-- A raised AssertionError; Python's bare `assert e` carries no message. -/
structure AssertFail where
  message : Option String
deriving DecidableEq, Repr

structure ControllerState (α ι actT : Type) where
  request_queue : Option (Event α ι)
  response_queue : Option actT
  last_event : Event α ι
  sent : List actT
deriving DecidableEq, Repr

/-- Controller.step(action, raise_for_failure).  `check` is the _check_action
pre-flight test (the base class returns True unconditionally; subclasses may
override it), `engine` the external simulator answering on the channel. -/
def Controller.step {α ι actT : Type} (check : actT → Bool) (engine : actT → Event α ι)
    (s : ControllerState α ι actT) (action : actT) (raise_for_failure : Bool) :
    Except AssertFail (Event α ι) × ControllerState α ι actT :=
  if check action = false then
    let new_event : Event α ι :=
      { metadata := { s.last_event.metadata with lastActionSuccess := false },
        image := s.last_event.image }
    (Except.ok new_event, { s with last_event := new_event })
  else if s.request_queue.isSome then
    (Except.error { message := none }, s)
  else
    let s1 := { s with response_queue := some action, sent := s.sent ++ [action] }
    let ev := engine action
    let s2 := { s1 with response_queue := none, request_queue := some ev }
    let s3 := { s2 with request_queue := none, last_event := ev }
    if raise_for_failure ∧ ev.metadata.lastActionSuccess = false then
      (Except.error { message := none }, s3)
    else
      (Except.ok ev, s3)

/-! ## Frontier exploration (BFSSearchPoint, BFSController queue logic) -/

/-- BFSSearchPoint: the move_vector defaultdict defaults unset axes to 0. -/
structure BFSSearchPoint where
  start_position : Pt3
  moveX : ℚ
  moveZ : ℚ
  heading_angle : ℚ := 0
  horizon_angle : ℚ := 0
deriving DecidableEq, Repr

def BFSSearchPoint.target_point (sp : BFSSearchPoint) : Pt2 :=
  ⟨sp.start_position.x + sp.moveX, sp.start_position.z + sp.moveZ⟩

/-- The exploration state owned by BFSController: the frontier deque
(oldest first: popleft takes the head, append goes to the tail), the list of
seen target points, the accepted grid points and the allow_enqueue flag. -/
structure BFSState where
  queue : List BFSSearchPoint
  seen_points : List Pt2
  grid_points : List Pt3
  allow_enqueue : Bool
deriving DecidableEq, Repr

/-- BFSController.enqueue_point: discard the candidate if any seen target is
closer than grid_size/5 to its target point; otherwise record the target as
seen and append the candidate to the frontier. -/
def BFSController.enqueue_point (st : BFSState) (point : BFSSearchPoint) : BFSState :=
  if st.seen_points.any (fun p => decide (distanceSq p point.target_point < (grid_size / 5)^2)) then st
  else { st with seen_points := st.seen_points ++ [point.target_point],
                 queue := st.queue ++ [point] }

/-- BFSController.enqueue_points: no-op when allow_enqueue is false, else
derive the four axis-aligned candidates from the given position. -/
def BFSController.enqueue_points (st : BFSState) (agent_position : Pt3) : BFSState :=
  if st.allow_enqueue = false then st
  else
    let s1 := BFSController.enqueue_point st
      { start_position := agent_position, moveX := -grid_size, moveZ := 0 }
    let s2 := BFSController.enqueue_point s1
      { start_position := agent_position, moveX := grid_size, moveZ := 0 }
    let s3 := BFSController.enqueue_point s2
      { start_position := agent_position, moveX := 0, moveZ := -grid_size }
    BFSController.enqueue_point s3
      { start_position := agent_position, moveX := 0, moveZ := grid_size }

/-- Modelled from the spec: the engine collaborator (spec section 6) as seen
through the channel during exploration.  teleportOk says whether a Teleport
to the given position reports success; move answers a Move request (with
moveMagnitude = grid_size) by the success flag and, on success, the
resulting agent position. -/
structure Engine where
  teleportOk : Pt3 → Bool
  move : Pt3 → ℚ → ℚ → Option Pt3

/-- BFSController.queue_step: popleft a search point, Teleport to its start
(a failed teleport is a fatal assertion), Move by its vector; on a
successful move with sane height, derive new candidates and accept the
resulting pose as a grid point.  `none` models the fatal paths (failed
teleport assertion, "got big point" exception, popleft on an empty deque). -/
def BFSController.queue_step (eng : Engine) (st : BFSState) : Option BFSState :=
  match st.queue with
  | [] => none
  | sp :: rest =>
    if eng.teleportOk sp.start_position then
      match eng.move sp.start_position sp.moveX sp.moveZ with
      | some pos =>
          if pos.y > 13/10 then none
          else
            let st1 := BFSController.enqueue_points { st with queue := rest } pos
            some { st1 with grid_points := st1.grid_points ++ [pos] }
      | none => some { st with queue := rest }
    else none

/-- The `while self.queue: self.queue_step()` loop, with explicit fuel; fuel
exhaustion returns the state reached so far (theorems hold for every fuel). -/
def runSearch (eng : Engine) : ℕ → BFSState → Option BFSState
  | 0, st => some st
  | fuel+1, st =>
      if st.queue.isEmpty then some st
      else
        match BFSController.queue_step eng st with
        | some st2 => runSearch eng fuel st2
        | none => none

def initialBFSState : BFSState :=
  { queue := [], seen_points := [], grid_points := [], allow_enqueue := true }

/-- The state prepared by search_all_closed before its loop: fresh state,
allow_enqueue true, candidates seeded from the initial agent position. -/
def search_all_closed_init (agent_position : Pt3) : BFSState :=
  BFSController.enqueue_points initialBFSState agent_position

/-- The state prepared by start_search before its loop: fresh state, the
frontier seeded from the externally supplied full grid with allow_enqueue
temporarily true, then allow_enqueue set to False. -/
def start_search_init (full_grid : List Pt3) : BFSState :=
  let st := full_grid.foldl BFSController.enqueue_points initialBFSState
  { st with allow_enqueue := false }

/-! ## Connectivity check (BFSController.has_islands) -/

/-- The four candidate dicts pushed by enqueue_island_points, in python
append order: z+mag, z-mag, x+mag, x-mag. -/
def islandOffsets (p : Pt3) : List Pt2 :=
  [⟨p.x, p.z + grid_size⟩, ⟨p.x, p.z - grid_size⟩,
   ⟨p.x + grid_size, p.z⟩, ⟨p.x - grid_size, p.z⟩]

/-- Flood-fill state: the local work list (represented with the python
list's last element first, because queue.pop() pops from the end) and the
set of seen points (a list without duplicates by construction). -/
structure FloodState where
  queue : List Pt2
  seen : List Pt3
deriving DecidableEq, Repr

def enqueue_island_points (st : FloodState) (p : Pt3) : FloodState :=
  if p ∈ st.seen then st
  else { queue := (islandOffsets p).reverse ++ st.queue, seen := p :: st.seen }

/-- The inner `for p in self.grid_points: if dist < 0.05: enqueue` loop,
recursing over the remaining grid points. -/
def floodMatchGo (c : Pt2) : List Pt3 → FloodState → FloodState
  | [], st => st
  | p :: ps, st =>
      floodMatchGo c ps (if distanceSq c p.xz < (1/20)^2 then enqueue_island_points st p else st)

def floodMatch (grid : List Pt3) (c : Pt2) (st : FloodState) : FloodState :=
  floodMatchGo c grid st

/-- The `while queue:` flood-fill loop with explicit fuel (floodFuel is
proven sufficient below, so has_islands computes the loop's fixpoint). -/
def floodLoopF (grid : List Pt3) : ℕ → FloodState → FloodState
  | 0, st => st
  | fuel+1, st =>
      match st.queue with
      | [] => st
      | c :: rest => floodLoopF grid fuel (floodMatch grid c { queue := rest, seen := st.seen })

def floodFuel (grid : List Pt3) : ℕ := 4 * grid.dedup.length + 5

/-- BFSController.has_islands; reading grid_points[0] of an empty grid is an
IndexError, embedded as none. -/
def BFSController.has_islands (grid : List Pt3) : Option Bool :=
  match grid with
  | [] => none
  | g0 :: _ =>
      let st := floodLoopF grid (floodFuel grid) (enqueue_island_points { queue := [], seen := [] } g0)
      some (decide (st.seen.length ≠ grid.length))

/-- One flood-fill adjacency step as the code performs it: q is a grid point
within 0.05 of one of p's four axis-aligned grid_size offsets. -/
def floodAdj (grid : List Pt3) (p q : Pt3) : Prop :=
  q ∈ grid ∧ ∃ c ∈ islandOffsets p, distanceSq c q.xz < (1/20)^2

def FloodReach (grid : List Pt3) (p q : Pt3) : Prop :=
  Relation.ReflTransGen (floodAdj grid) p q

/-- Number of distinct grid points not yet seen (used as part of the
flood-fill termination measure). -/
def unseenCount (grid : List Pt3) (seen : List Pt3) : ℕ :=
  (grid.dedup.filter (fun p => decide (p ∉ seen))).length

/-- Termination measure of the flood-fill loop: popping strictly decreases
it, every enqueue keeps it constant. -/
def floodMeasure (grid : List Pt3) (st : FloodState) : ℕ :=
  4 * unseenCount grid st.seen + st.queue.length

/-- Flood-fill loop invariant: seen points are distinct grid points reached
from g0; every queue entry is an offset of a seen point; every offset of a
seen point is either still queued or fully processed (every grid point near
it is seen). -/
def FloodInv (grid : List Pt3) (g0 : Pt3) (st : FloodState) : Prop :=
  st.seen.Nodup ∧
  (∀ p ∈ st.seen, p ∈ grid) ∧
  (∀ p ∈ st.seen, FloodReach grid g0 p) ∧
  (∀ c ∈ st.queue, ∃ p ∈ st.seen, c ∈ islandOffsets p) ∧
  (∀ p ∈ st.seen, ∀ c ∈ islandOffsets p,
      c ∈ st.queue ∨ ∀ r ∈ grid, distanceSq c r.xz < (1/20)^2 → r ∈ st.seen)

/-- The invariant weakened while the popped offset c0 is being processed. -/
def FloodInvExc (grid : List Pt3) (g0 : Pt3) (c0 : Pt2) (st : FloodState) : Prop :=
  st.seen.Nodup ∧
  (∀ p ∈ st.seen, p ∈ grid) ∧
  (∀ p ∈ st.seen, FloodReach grid g0 p) ∧
  (∀ c ∈ st.queue, ∃ p ∈ st.seen, c ∈ islandOffsets p) ∧
  (∀ p ∈ st.seen, ∀ c ∈ islandOffsets p,
      c ∈ st.queue ∨ c = c0 ∨ ∀ r ∈ grid, distanceSq c r.xz < (1/20)^2 → r ∈ st.seen)

/-- The claim's graph, following the spec's words (refinement comparison
definition, not code): an edge joins two points exactly when their x-z
Euclidean distance is grid_size within tolerance eps. -/
def specRingAdj (eps : ℚ) (p q : Pt3) : Prop :=
  (grid_size - eps)^2 ≤ distXZSq p q ∧ distXZSq p q ≤ (grid_size + eps)^2

def specRingReach (grid : List Pt3) (eps : ℚ) (p q : Pt3) : Prop :=
  Relation.ReflTransGen (fun a b => b ∈ grid ∧ specRingAdj eps a b) p q

/-! ## Pruning (BFSController.prune_points) -/

/-- BFSController.prune_points: keep a grid point iff the quantized
one-decimal key of one of its four cardinal grid_size offsets occurs among
the keys of the (pre-pruning) grid. -/
def BFSController.prune_points (grid : List Pt3) : List Pt3 :=
  let final_grid_points := grid.map (fun gp => key_for_point gp.x gp.z)
  grid.filter (fun gp =>
    final_grid_points.contains (key_for_point (gp.x + grid_size) gp.z) ||
    final_grid_points.contains (key_for_point (gp.x - grid_size) gp.z) ||
    final_grid_points.contains (key_for_point gp.x (gp.z + grid_size)) ||
    final_grid_points.contains (key_for_point gp.x (gp.z - grid_size)))

/-- Propositional form of the condition prune_points keeps: some point of
the grid has the quantized key of one of gp's four cardinal offsets. -/
def KeyNeighborExists (grid : List Pt3) (gp : Pt3) : Prop :=
  ∃ q ∈ grid,
    key_for_point q.x q.z = key_for_point (gp.x + grid_size) gp.z ∨
    key_for_point q.x q.z = key_for_point (gp.x - grid_size) gp.z ∨
    key_for_point q.x q.z = key_for_point gp.x (gp.z + grid_size) ∨
    key_for_point q.x q.z = key_for_point gp.x (gp.z - grid_size)

/-- The claim's neighbor notion for prune_points, following the spec's words
(refinement comparison definition, not code): a point of the grid at
Euclidean distance grid_size (within eps) in one of the four cardinal
directions from gp. -/
def specCardinalNeighbor (eps : ℚ) (gp q : Pt3) : Prop :=
  (q.z = gp.z ∧ (grid_size - eps)^2 ≤ (q.x - gp.x)^2 ∧ (q.x - gp.x)^2 ≤ (grid_size + eps)^2) ∨
  (q.x = gp.x ∧ (grid_size - eps)^2 ≤ (q.z - gp.z)^2 ∧ (q.z - gp.z)^2 ≤ (grid_size + eps)^2)

/-! ## Reachability graph and path planner -/

abbrev Key3 := (Bool × ℤ) × (Bool × ℤ)

/-- BFSController.key_for_point: "x|z" formatted at three decimals. -/
def BFSController.key_for_point (p : Pt3) : Key3 :=
  (fmtFixed 1000 p.x, fmtFixed 1000 p.z)

/-- The edge test of _build_graph_point: 0 < dist <= grid_size + 0.01. -/
def BFSController.graphEdgeB (p q : Pt3) : Bool :=
  decide (distXZSq p q ≤ (grid_size + 1/100)^2) && decide (0 < distXZSq p q)

/-- The keys adjacent to key k in the graph built by build_graph: keys of
grid points q such that some grid point with key k is joined to q. -/
def BFSController.neighborKeys (grid : List Pt3) (k : Key3) : List Key3 :=
  (grid.filter (fun q =>
    grid.any (fun p => decide (BFSController.key_for_point p = k) && BFSController.graphEdgeB p q))).map
    BFSController.key_for_point

/-- An edge of the reachability graph between two keys. -/
def BFSController.edgeKey (grid : List Pt3) (k n : Key3) : Prop :=
  ∃ p ∈ grid, ∃ q ∈ grid,
    BFSController.key_for_point p = k ∧ BFSController.key_for_point q = n ∧
    BFSController.graphEdgeB p q = true

/-- The all_points dict of shortest_plan: maps a key to the last grid point
carrying it (a later dict assignment wins). -/
def BFSController.allPointsGet (grid : List Pt3) (k : Key3) : Option Pt3 :=
  grid.reverse.find? (fun p => decide (BFSController.key_for_point p = k))

/-- The engine action names the planner emits. -/
inductive ActName where
  | moveAhead | moveRight | moveBack | moveLeft
  | rotateRight | rotateLeft | lookUp | lookDown
deriving DecidableEq, Repr, Fintype

def ActName.isTranslation : ActName → Bool
  | .moveAhead => true
  | .moveRight => true
  | .moveBack => true
  | .moveLeft => true
  | _ => false

/-- The action_orientation table of move_relative_points, in python dict
insertion order: relative rotation, world offset (x, z), action name. -/
def action_orientation : List (ℤ × (ℤ × ℤ) × ActName) :=
  [(0, ((0, 1), ActName.moveAhead)), (90, ((1, 0), ActName.moveRight)),
   (180, ((0, -1), ActName.moveBack)), (270, ((-1, 0), ActName.moveLeft))]

/-- Subscripting action_orientation by a rotation value; none is a KeyError. -/
def lookupAO (d : ℤ) : Option ((ℤ × ℤ) × ActName) :=
  (action_orientation.find? (fun e => decide (e.1 = d))).map Prod.snd

/-- Python insertion-ordered dict insert: overwrite in place or append. -/
def dictInsert {κ α : Type} [DecidableEq κ] : List (κ × α) → κ → α → List (κ × α)
  | [], k, v => [(k, v)]
  | (k1, v1) :: rest, k, v =>
      if k1 = k then (k1, v) :: rest else (k1, v1) :: dictInsert rest k v

def dictGet {κ α : Type} [DecidableEq κ] (d : List (κ × α)) (k : κ) : Option α :=
  (d.find? (fun e => decide (e.1 = k))).map Prod.snd

/-- The inner `for target_rotation, offsets in action_orientation.items()`
loop of move_relative_points, with its break: outer none is the KeyError
when action_orientation[delta] is missing; some none means no entry
matched; some (some name) is the matched action name. -/
def BFSController.matchEntry (rotation : ℤ) (xo zo : ℤ) :
    List (ℤ × (ℤ × ℤ) × ActName) → Option (Option ActName)
  | [] => some none
  | (tr, _, name) :: rest =>
      match lookupAO ((rotation + tr) % 360) with
      | none => none
      | some e =>
          if xo = e.1.1 ∧ zo = e.1.2 then some (some name)
          else BFSController.matchEntry rotation xo zo rest

/-- The outer loop of move_relative_points over the neighbors of the
current key, accumulating the move_points dict (keyed by action name). -/
def BFSController.mrpGo (grid : List Pt3) (position : Pt3) (rotation : ℤ) :
    List Key3 → List (ActName × Pt3) → Option (List (ActName × Pt3))
  | [], mp => some mp
  | n :: ns, mp =>
      match BFSController.allPointsGet grid n with
      | none => none
      | some point =>
          let xo := rhe ((point.x - position.x) / grid_size)
          let zo := rhe ((point.z - position.z) / grid_size)
          match BFSController.matchEntry rotation xo zo action_orientation with
          | none => none
          | some none => BFSController.mrpGo grid position rotation ns mp
          | some (some name) => BFSController.mrpGo grid position rotation ns (dictInsert mp name point)

/-- BFSController.move_relative_points (the agent rotation is an exact
multiple-of-90 integer in the claims; round() on it is the identity). -/
def BFSController.move_relative_points (grid : List Pt3) (position : Pt3) (rotation : ℤ) :
    Option (List (ActName × Pt3)) :=
  BFSController.mrpGo grid position rotation
    (BFSController.neighborKeys grid (BFSController.key_for_point position)) []

/-- The horizon_step_map dict of plan_horizons. -/
def horizon_step_map : List (ℤ × ℤ) := [(330, 3), (0, 2), (30, 1), (60, 0)]

/-- BFSController.plan_horizons; none models the KeyError on a horizon
outside the table. -/
def BFSController.plan_horizons (agent_horizon target_horizon : ℤ) : Option (List ActName) :=
  match dictGet horizon_step_map agent_horizon, dictGet horizon_step_map target_horizon with
  | some s1, some s2 =>
      let look_diff := s1 - s2
      if look_diff > 0 then some (List.replicate look_diff.toNat ActName.lookDown)
      else some (List.replicate (-look_diff).toNat ActName.lookUp)
  | _, _ => none

/-- Python int(): truncation toward zero. -/
def qtrunc (q : ℚ) : ℤ := if q < 0 then ⌈q⌉ else ⌊q⌋

/-- BFSController.plan_rotations.  The source compares the exact quotients
right_diff/90 and left_diff/90 and truncates them with int() only inside
range(); both are embedded exactly over the rationals. -/
def BFSController.plan_rotations (agent_rotation target_rotation : ℤ) : List ActName :=
  let right_diff0 := target_rotation - agent_rotation
  let right_diff := if right_diff0 < 0 then right_diff0 + 360 else right_diff0
  let right_steps : ℚ := (right_diff : ℚ) / 90
  let left_diff0 := agent_rotation - target_rotation
  let left_diff := if left_diff0 < 0 then left_diff0 + 360 else left_diff0
  let left_steps : ℚ := (left_diff : ℚ) / 90
  if right_steps < left_steps then
    List.replicate (qtrunc right_steps).toNat ActName.rotateRight
  else
    List.replicate (qtrunc left_steps).toNat ActName.rotateLeft

/-- An agent or target pose as shortest_plan reads it: position, rotation
around y, camera horizon (rotation and horizon idealized as integers). -/
structure AgentPose where
  position : Pt3
  rotationY : ℤ
  cameraHorizon : ℤ
deriving DecidableEq, Repr

/-- The `for p in path[1:]` loop of shortest_plan: invert move_points into
inv_pms (a dict keyed by point key), emit the action leading to the next
path key and advance current_position; the current rotation is never
updated (translations do not change the heading). -/
def BFSController.planLoop (grid : List Pt3) (rotation : ℤ) : Pt3 → List Key3 → Option (List ActName)
  | _, [] => some []
  | current, p :: rest =>
      match BFSController.move_relative_points grid current rotation with
      | none => none
      | some mp =>
          let inv := mp.foldl (fun d e => dictInsert d (BFSController.key_for_point e.2) e.1) []
          match dictGet inv p, BFSController.allPointsGet grid p with
          | some name, some next =>
              (BFSController.planLoop grid rotation next rest).map (fun acts => name :: acts)
          | _, _ => none

/-- BFSController.shortest_plan.  The external nx.shortest_path call is
modelled by the `path` argument (its contract — a path in the graph between
the two keys — is a hypothesis of the theorems about this function).
Translation actions are emitted first, then plan_horizons, then
plan_rotations, exactly as in the source. -/
def BFSController.shortest_plan (grid : List Pt3) (path : List Key3) (agent target : AgentPose) :
    Option (List ActName) :=
  match BFSController.planLoop grid agent.rotationY agent.position path.tail with
  | none => none
  | some transActs =>
      match BFSController.plan_horizons agent.cameraHorizon target.cameraHorizon with
      | none => none
      | some tilts =>
          some (transActs ++ tilts ++ BFSController.plan_rotations agent.rotationY target.rotationY)

/-! ## Engine-side execution of planned actions

Modelled from the spec: each MoveAhead/Right/Back/Left translates one
grid_size step in the world direction given by the current heading offset
by the action's relative direction, RotateRight/Left turn 90 degrees, and
LookUp/Down step the camera horizon one index along horizon_step_map. -/

structure ExecPose where
  pos : Pt2
  rot : ℤ
  hor : ℤ
deriving DecidableEq, Repr

/-- Horizon value whose step index is s. -/
def horizon_from_step (s : ℤ) : Option ℤ :=
  (horizon_step_map.find? (fun e => decide (e.2 = s))).map Prod.fst

def execMove (p : ExecPose) (rel : ℤ) : Option ExecPose :=
  (lookupAO ((p.rot + rel) % 360)).map
    (fun e => { p with pos := ⟨p.pos.x + grid_size * e.1.1, p.pos.z + grid_size * e.1.2⟩ })

def execLook (p : ExecPose) (delta : ℤ) : Option ExecPose :=
  match dictGet horizon_step_map p.hor with
  | some s => (horizon_from_step (s + delta)).map (fun h => { p with hor := h })
  | none => none

def execAction (p : ExecPose) : ActName → Option ExecPose
  | .moveAhead => execMove p 0
  | .moveRight => execMove p 90
  | .moveBack => execMove p 180
  | .moveLeft => execMove p 270
  | .rotateRight => some { p with rot := (p.rot + 90) % 360 }
  | .rotateLeft => some { p with rot := (p.rot - 90) % 360 }
  | .lookUp => execLook p 1
  | .lookDown => execLook p (-1)

def execList (p : ExecPose) : List ActName → Option ExecPose
  | [] => some p
  | a :: rest => (execAction p a).bind (fun p2 => execList p2 rest)

def AgentPose.toExec (a : AgentPose) : ExecPose :=
  { pos := a.position.xz, rot := a.rotationY, hor := a.cameraHorizon }

/-! ## Lattice side conditions -/

/-- The x and z coordinates are integer multiples of grid_size. -/
def LatticeXZ (p : Pt3) : Prop :=
  (p.x / grid_size).den = 1 ∧ (p.z / grid_size).den = 1

/-- A search point whose start and move vector are lattice-aligned. -/
def LatticeSP (sp : BFSSearchPoint) : Prop :=
  LatticeXZ sp.start_position ∧ (sp.moveX / grid_size).den = 1 ∧ (sp.moveZ / grid_size).den = 1

/-- Exploration-state lattice invariant for the dedup claim. -/
def LatticeInv (st : BFSState) : Prop :=
  (∀ sp ∈ st.queue, LatticeSP sp) ∧ (∀ p ∈ st.grid_points, LatticeXZ p)

/-- An engine whose successful moves land exactly on the requested target
point (x = start.x + dx, z = start.z + dz). -/
def Engine.Exact (eng : Engine) : Prop :=
  ∀ s dx dz p, eng.move s dx dz = some p → p.x = s.x + dx ∧ p.z = s.z + dz

/-- A well-formed move_points entry relative to the current position c and
rotation r: a grid point one cardinal grid step away whose action name was
selected by the action_orientation match. -/
def MrpValid (grid : List Pt3) (c : Pt3) (r : ℤ) (e : ActName × Pt3) : Prop :=
  e.2 ∈ grid ∧ ∃ di dj : ℤ, di^2 + dj^2 = 1 ∧
    e.2.x - c.x = di * grid_size ∧ e.2.z - c.z = dj * grid_size ∧
    BFSController.matchEntry r di dj action_orientation = some (some e.1)

instance (eps : ℚ) (gp q : Pt3) : Decidable (specCardinalNeighbor eps gp q) := by
  unfold specCardinalNeighbor; infer_instance

instance (eps : ℚ) (p q : Pt3) : Decidable (specRingAdj eps p q) := by
  unfold specRingAdj; infer_instance

instance (grid : List Pt3) (gp : Pt3) : Decidable (KeyNeighborExists grid gp) := by
  unfold KeyNeighborExists; infer_instance

instance (grid : List Pt3) (p q : Pt3) : Decidable (floodAdj grid p q) := by
  unfold floodAdj; infer_instance

instance (p : Pt3) : Decidable (LatticeXZ p) := by
  unfold LatticeXZ; infer_instance

instance (sp : BFSSearchPoint) : Decidable (LatticeSP sp) := by
  unfold LatticeSP; infer_instance

instance (st : BFSState) : Decidable (LatticeInv st) := by
  unfold LatticeInv; infer_instance

/-- A concrete engine accepting every move and landing exactly on target. -/
def engineExact : Engine :=
  { teleportOk := fun _ => true,
    move := fun s dx dz => some ⟨s.x + dx, 0, s.z + dz⟩ }

/-- A concrete engine whose two successful moves land slightly off target
(as the wire contract permits: the resulting pose is whatever the engine
reports). -/
def engineOffLattice : Engine :=
  { teleportOk := fun _ => true,
    move := fun s dx dz =>
      if s = ⟨0, 0, 0⟩ ∧ dx = -grid_size ∧ dz = 0 then some ⟨4/100, 0, 0⟩
      else if s = ⟨0, 0, 0⟩ ∧ dx = grid_size ∧ dz = 0 then some ⟨6/100, 0, 0⟩
      else none }

/-! ## Theorems about the session controller (claims C1, C2, C9) -/

/-- C1, counterexample to the claim as stated: with raise_for_failure set and
an engine answer whose success flag is false and whose errorMessage is
"boom", step fails via a bare `assert` that carries no message at all, so
the failure condition does not carry the engine's error message. -/
theorem C1_counterexample :
    (Controller.step (fun _ : Unit => true)
        (fun _ : Unit => ({ metadata := { lastActionSuccess := false, errorMessage := "boom", rest := () }, image := () } : Event Unit Unit))
        { request_queue := none, response_queue := none,
          last_event := { metadata := { lastActionSuccess := true, errorMessage := "", rest := () }, image := () },
          sent := [] }
        () true).fst = Except.error { message := none } ∧
    (none : Option String) ≠ some ("boom") := by
  constructor
  · rfl
  · decide

/-- C1 (amended): for every action accepted by the pre-flight check with the
channel free, if the engine's Event has success = false then
step with raise_for_failure = true fails with a bare assertion failure
(carrying no message, in particular not the engine's error message), and
step with raise_for_failure = false returns the failed Event normally with
no exception. -/
theorem C1_amended {α ι actT : Type} (check : actT → Bool) (engine : actT → Event α ι)
    (s : ControllerState α ι actT) (action : actT)
    (hcheck : check action = true) (hq : s.request_queue = none)
    (hfail : (engine action).metadata.lastActionSuccess = false) :
    (Controller.step check engine s action true).fst = Except.error { message := none } ∧
    (Controller.step check engine s action false).fst = Except.ok (engine action) := by
  unfold Controller.step
  rw [hcheck, hq]
  simp [hfail]

theorem C1_witness :
    ((fun _ : Unit => true) () = true ∧
      ({ request_queue := none, response_queue := none,
         last_event := { metadata := { lastActionSuccess := true, errorMessage := "", rest := () }, image := () },
         sent := [] } : ControllerState Unit Unit Unit).request_queue = none ∧
      ((fun _ : Unit => ({ metadata := { lastActionSuccess := false, errorMessage := "e", rest := () }, image := () } : Event Unit Unit)) ()).metadata.lastActionSuccess = false) ∧
    ((Controller.step (fun _ : Unit => true)
        (fun _ : Unit => ({ metadata := { lastActionSuccess := false, errorMessage := "e", rest := () }, image := () } : Event Unit Unit))
        { request_queue := none, response_queue := none,
          last_event := { metadata := { lastActionSuccess := true, errorMessage := "", rest := () }, image := () },
          sent := [] } () true).fst = Except.error { message := none } ∧
      (Controller.step (fun _ : Unit => true)
        (fun _ : Unit => ({ metadata := { lastActionSuccess := false, errorMessage := "e", rest := () }, image := () } : Event Unit Unit))
        { request_queue := none, response_queue := none,
          last_event := { metadata := { lastActionSuccess := true, errorMessage := "", rest := () }, image := () },
          sent := [] } () false).fst = Except.ok
            { metadata := { lastActionSuccess := false, errorMessage := "e", rest := () }, image := () }) :=
  ⟨⟨rfl, rfl, rfl⟩, C1_amended _ _ _ _ rfl rfl rfl⟩

/-- C2 (confirmed): an action rejected by the pre-flight check never places
anything on the channel (both queues and the transmission log are exactly as
before), and the returned Event is a copy of the previous event's metadata
(and image) with the success flag set to false. -/
theorem C2_reject_short_circuits {α ι actT : Type} (check : actT → Bool)
    (engine : actT → Event α ι) (s : ControllerState α ι actT) (action : actT)
    (raise_for_failure : Bool) (hcheck : check action = false) :
    (Controller.step check engine s action raise_for_failure).snd.request_queue = s.request_queue ∧
    (Controller.step check engine s action raise_for_failure).snd.response_queue = s.response_queue ∧
    (Controller.step check engine s action raise_for_failure).snd.sent = s.sent ∧
    (Controller.step check engine s action raise_for_failure).fst = Except.ok
      { metadata := { s.last_event.metadata with lastActionSuccess := false },
        image := s.last_event.image } := by
  unfold Controller.step
  rw [hcheck]
  simp

theorem C2_witness :
    ((fun _ : Unit => false) () = false) ∧
    ((Controller.step (fun _ : Unit => false)
        (fun _ : Unit => ({ metadata := { lastActionSuccess := true, errorMessage := "", rest := () }, image := () } : Event Unit Unit))
        { request_queue := none, response_queue := none,
          last_event := { metadata := { lastActionSuccess := true, errorMessage := "m", rest := () }, image := () },
          sent := [] } () false).snd.request_queue = none ∧
      (Controller.step (fun _ : Unit => false)
        (fun _ : Unit => ({ metadata := { lastActionSuccess := true, errorMessage := "", rest := () }, image := () } : Event Unit Unit))
        { request_queue := none, response_queue := none,
          last_event := { metadata := { lastActionSuccess := true, errorMessage := "m", rest := () }, image := () },
          sent := [] } () false).snd.response_queue = none ∧
      (Controller.step (fun _ : Unit => false)
        (fun _ : Unit => ({ metadata := { lastActionSuccess := true, errorMessage := "", rest := () }, image := () } : Event Unit Unit))
        { request_queue := none, response_queue := none,
          last_event := { metadata := { lastActionSuccess := true, errorMessage := "m", rest := () }, image := () },
          sent := [] } () false).snd.sent = [] ∧
      (Controller.step (fun _ : Unit => false)
        (fun _ : Unit => ({ metadata := { lastActionSuccess := true, errorMessage := "", rest := () }, image := () } : Event Unit Unit))
        { request_queue := none, response_queue := none,
          last_event := { metadata := { lastActionSuccess := true, errorMessage := "m", rest := () }, image := () },
          sent := [] } () false).fst = Except.ok
          { metadata := { lastActionSuccess := false, errorMessage := "m", rest := () }, image := () }) :=
  ⟨rfl, C2_reject_short_circuits _ _ _ _ _ rfl⟩

/-- C9 (confirmed): when raise_for_failure is set and the engine returns a
failed Event, the controller's last-event state has already been replaced by
that failed Event before the failure is raised: the post-state of the failing
call holds the failed Event, not the previous one. -/
theorem C9_last_event_updated_before_raise {α ι actT : Type} (check : actT → Bool)
    (engine : actT → Event α ι) (s : ControllerState α ι actT) (action : actT)
    (hcheck : check action = true) (hq : s.request_queue = none)
    (hfail : (engine action).metadata.lastActionSuccess = false) :
    (Controller.step check engine s action true).fst = Except.error { message := none } ∧
    (Controller.step check engine s action true).snd.last_event = engine action := by
  unfold Controller.step
  rw [hcheck, hq]
  simp [hfail]

theorem C9_witness :
    ((fun _ : Unit => true) () = true ∧
      ({ request_queue := none, response_queue := none,
         last_event := { metadata := { lastActionSuccess := true, errorMessage := "", rest := () }, image := () },
         sent := [] } : ControllerState Unit Unit Unit).request_queue = none ∧
      ((fun _ : Unit => ({ metadata := { lastActionSuccess := false, errorMessage := "e9", rest := () }, image := () } : Event Unit Unit)) ()).metadata.lastActionSuccess = false) ∧
    ((Controller.step (fun _ : Unit => true)
        (fun _ : Unit => ({ metadata := { lastActionSuccess := false, errorMessage := "e9", rest := () }, image := () } : Event Unit Unit))
        { request_queue := none, response_queue := none,
          last_event := { metadata := { lastActionSuccess := true, errorMessage := "", rest := () }, image := () },
          sent := [] } () true).fst = Except.error { message := none } ∧
      (Controller.step (fun _ : Unit => true)
        (fun _ : Unit => ({ metadata := { lastActionSuccess := false, errorMessage := "e9", rest := () }, image := () } : Event Unit Unit))
        { request_queue := none, response_queue := none,
          last_event := { metadata := { lastActionSuccess := true, errorMessage := "", rest := () }, image := () },
          sent := [] } () true).snd.last_event =
        { metadata := { lastActionSuccess := false, errorMessage := "e9", rest := () }, image := () }) :=
  ⟨⟨rfl, rfl, rfl⟩, C9_last_event_updated_before_raise _ _ _ _ rfl rfl rfl⟩

/-! ## Theorems about has_islands totality (claim C10) -/

/-- C10 (confirmed): has_islands unconditionally reads grid_points[0], so it
fails (returns none in the embedding) exactly on the empty grid and returns
a boolean on every non-empty grid. -/
theorem C10_empty_grid_precondition (grid : List Pt3) :
    BFSController.has_islands grid = none ↔ grid = [] := by
  cases grid with
  | nil => simp [BFSController.has_islands]
  | cons g0 rest => simp [BFSController.has_islands]

/-- Membership characterization of Python's `key in set-of-keys` test. -/
theorem contains_map_iff {α β : Type} [BEq β] [LawfulBEq β] (l : List α) (f : α → β) (k : β) :
    ((l.map f).contains k) = true ↔ ∃ q ∈ l, f q = k := by
  simp [List.contains, List.elem_iff, List.mem_map]

/-! ## Theorems about prune_points (claim C5) -/

/-- C5, counterexample to the claim as stated: in the grid
[(0,0,0), (0.21,0,0)] the point (0,0,0) has no grid point at Euclidean
distance grid_size (within epsilon = 0.01) in any cardinal direction, so the
claim requires it to be removed; but prune_points keeps it, because the
one-decimal quantized key of (0 + grid_size, 0) collides with the key of
(0.21, 0). -/
theorem C5_counterexample :
    (⟨0, 0, 0⟩ : Pt3) ∈ BFSController.prune_points [⟨0, 0, 0⟩, ⟨21/100, 0, 0⟩] ∧
    ∀ q ∈ ([⟨0, 0, 0⟩, ⟨21/100, 0, 0⟩] : List Pt3),
      ¬ specCardinalNeighbor (1/100) ⟨0, 0, 0⟩ q := by
  with_unfolding_all decide

/-- C5 (amended): prune_points keeps exactly those grid points gp such that
the quantized one-decimal key of one of the four cardinal offsets of gp at
distance grid_size occurs among the keys of the (pre-pruning) accepted set;
by the 0.1 quantization of keys this is not the same as having a neighbor
at Euclidean distance grid_size within epsilon. -/
theorem C5_amended (grid : List Pt3) (gp : Pt3) :
    gp ∈ BFSController.prune_points grid ↔ gp ∈ grid ∧ KeyNeighborExists grid gp := by
  unfold BFSController.prune_points KeyNeighborExists
  rw [List.mem_filter]
  simp only [Bool.or_eq_true, contains_map_iff]
  constructor
  · rintro ⟨hmem, h⟩
    refine ⟨hmem, ?_⟩
    rcases h with ((⟨q, hq, hk⟩ | ⟨q, hq, hk⟩) | ⟨q, hq, hk⟩) | ⟨q, hq, hk⟩
    · exact ⟨q, hq, Or.inl hk⟩
    · exact ⟨q, hq, Or.inr (Or.inl hk)⟩
    · exact ⟨q, hq, Or.inr (Or.inr (Or.inl hk))⟩
    · exact ⟨q, hq, Or.inr (Or.inr (Or.inr hk))⟩
  · rintro ⟨hmem, q, hq, hk | hk | hk | hk⟩
    · exact ⟨hmem, Or.inl (Or.inl (Or.inl ⟨q, hq, hk⟩))⟩
    · exact ⟨hmem, Or.inl (Or.inl (Or.inr ⟨q, hq, hk⟩))⟩
    · exact ⟨hmem, Or.inl (Or.inr ⟨q, hq, hk⟩)⟩
    · exact ⟨hmem, Or.inr ⟨q, hq, hk⟩⟩

/-! ## Theorems about plan_rotations (claim C8) -/

/-- C8 (confirmed): for headings in {0, 90, 180, 270}, plan_rotations emits
only RotateRight actions or only RotateLeft actions, never more than 2,
RotateRight exactly when the clockwise step count is strictly smaller,
RotateLeft otherwise, and on an exact tie (180 degrees) it emits RotateLeft. -/
theorem C8_plan_rotations_shape (a t : ℤ)
    (ha : a ∈ ([0, 90, 180, 270] : List ℤ)) (ht : t ∈ ([0, 90, 180, 270] : List ℤ)) :
    ((∀ x ∈ BFSController.plan_rotations a t, x = ActName.rotateRight) ∨
      (∀ x ∈ BFSController.plan_rotations a t, x = ActName.rotateLeft)) ∧
    (BFSController.plan_rotations a t).length ≤ 2 ∧
    ((t - a) % 360 < (a - t) % 360 →
      BFSController.plan_rotations a t =
        List.replicate (((t - a) % 360) / 90).toNat ActName.rotateRight) ∧
    ((a - t) % 360 ≤ (t - a) % 360 →
      BFSController.plan_rotations a t =
        List.replicate (((a - t) % 360) / 90).toNat ActName.rotateLeft) ∧
    ((t - a) % 360 = 180 → BFSController.plan_rotations a t = List.replicate 2 ActName.rotateLeft) := by
  fin_cases ha <;> fin_cases ht <;> with_unfolding_all decide

theorem C8_witness :
    ((0 : ℤ) ∈ ([0, 90, 180, 270] : List ℤ) ∧ (180 : ℤ) ∈ ([0, 90, 180, 270] : List ℤ)) ∧
    (((∀ x ∈ BFSController.plan_rotations 0 180, x = ActName.rotateRight) ∨
       (∀ x ∈ BFSController.plan_rotations 0 180, x = ActName.rotateLeft)) ∧
     (BFSController.plan_rotations 0 180).length ≤ 2 ∧
     (((180 : ℤ) - 0) % 360 < ((0 : ℤ) - 180) % 360 →
       BFSController.plan_rotations 0 180 =
         List.replicate ((((180 : ℤ) - 0) % 360) / 90).toNat ActName.rotateRight) ∧
     (((0 : ℤ) - 180) % 360 ≤ ((180 : ℤ) - 0) % 360 →
       BFSController.plan_rotations 0 180 =
         List.replicate ((((0 : ℤ) - 180) % 360) / 90).toNat ActName.rotateLeft) ∧
     (((180 : ℤ) - 0) % 360 = 180 →
       BFSController.plan_rotations 0 180 = List.replicate 2 ActName.rotateLeft)) :=
  ⟨⟨by decide, by decide⟩, C8_plan_rotations_shape 0 180 (by decide) (by decide)⟩

/-! ## Theorems about the seeded search (claim C6) -/

/-- C6, counterexample to the claim as stated: in the seeded search from the
grid [(0,0,0)] with an engine that moves exactly onto the target, the first
queue step succeeds, appends the pose (-0.25, 0, 0) to grid_points — but
derives and enqueues no new SearchPoints at all (the queue only shrinks
from 4 to 3 and seen_points is unchanged), even though the candidate target
(-0.5, 0) derived from the new pose would pass the dedup filter. -/
theorem C6_counterexample :
    (BFSController.queue_step engineExact (start_search_init [⟨0, 0, 0⟩])).map
        (fun st => (decide (st.seen_points = (start_search_init [⟨0, 0, 0⟩]).seen_points),
                    st.queue.length, st.grid_points))
      = some (true, 3, [⟨-(1/4), 0, 0⟩]) ∧
    (start_search_init [⟨0, 0, 0⟩]).seen_points.any
        (fun p => decide (distanceSq p ⟨-(1/2), 0⟩ < (grid_size / 5)^2)) = false := by
  with_unfolding_all decide

/-- C6 (amended): in the seeded search, allow_enqueue is false during the
exploration loop, so a queue step whose Move succeeds appends the resulting
pose to grid_points but derives and enqueues no new SearchPoints: the
frontier only loses the popped element and seen_points is unchanged; only
the externally seeded candidates are ever tested. -/
theorem C6_seeded_step_no_new_candidates (eng : Engine) (st : BFSState)
    (sp : BFSSearchPoint) (rest : List BFSSearchPoint) (pos : Pt3)
    (hallow : st.allow_enqueue = false) (hq : st.queue = sp :: rest)
    (htel : eng.teleportOk sp.start_position = true)
    (hmove : eng.move sp.start_position sp.moveX sp.moveZ = some pos)
    (hy : ¬ pos.y > 13/10) :
    BFSController.queue_step eng st =
      some { st with queue := rest, grid_points := st.grid_points ++ [pos] } := by
  unfold BFSController.queue_step
  rw [hq]
  simp [htel, hmove, hy, BFSController.enqueue_points, hallow]

/-! ## Theorems about the dedup invariant (claim C7) -/

/-- C7, counterexample to the claim as stated: the wire contract lets the
engine report any resulting pose, and queue_step accepts it verbatim.  With
an engine whose two successful moves land at (0.04, 0) and (0.06, 0), a
completed exploration run from (0,0,0) accepts two grid points with
different quantized keys only 0.02 apart — far less than
grid_size - epsilon — even though every candidate passed the dedup filter. -/
theorem C7_counterexample :
    (runSearch engineOffLattice 20 (search_all_closed_init ⟨0, 0, 0⟩)).map
        (fun st => (st.grid_points, st.queue.isEmpty))
      = some ([⟨1/25, 0, 0⟩, ⟨3/50, 0, 0⟩], true) ∧
    key_for_point (1/25 : ℚ) 0 ≠ key_for_point (3/50 : ℚ) 0 ∧
    distXZSq ⟨1/25, 0, 0⟩ ⟨3/50, 0, 0⟩ < (grid_size - 1/100)^2 := by
  with_unfolding_all decide

/-- Multiples of grid_size characterize the lattice side condition. -/
theorem latq_iff (a : ℚ) : (a / grid_size).den = 1 ↔ ∃ n : ℤ, a = n * grid_size := by
  have hg : (grid_size : ℚ) ≠ 0 := by norm_num [grid_size]
  rw [Rat.den_eq_one_iff]
  constructor
  · intro h
    refine ⟨(a / grid_size).num, ?_⟩
    have h2 := congrArg (fun q : ℚ => q * grid_size) h
    simpa [div_mul_cancel₀, hg] using h2.symm
  · rintro ⟨n, rfl⟩
    rw [mul_div_assoc, div_self hg, mul_one]
    simp

theorem latq_add (a b : ℚ) (ha : (a / grid_size).den = 1) (hb : (b / grid_size).den = 1) :
    ((a + b) / grid_size).den = 1 := by
  obtain ⟨m, rfl⟩ := (latq_iff a).mp ha
  obtain ⟨n, rfl⟩ := (latq_iff b).mp hb
  exact (latq_iff _).mpr ⟨m + n, by push_cast; ring⟩

/-- Two distinct multiples of grid_size are at least grid_size apart. -/
theorem lattice_sq_ge (a b : ℚ) (m n : ℤ) (ha : a = m * grid_size) (hb : b = n * grid_size)
    (hne : a ≠ b) : grid_size^2 ≤ (a - b)^2 := by
  have hmn : m ≠ n := by
    intro h; exact hne (by rw [ha, hb, h])
  have h1 : (1 : ℤ) ≤ (m - n)^2 := by
    have habs := Int.one_le_abs (sub_ne_zero.mpr hmn)
    nlinarith [sq_abs (m - n), abs_nonneg (m - n)]
  have h1q : (1 : ℚ) ≤ ((m : ℚ) - n)^2 := by
    have : ((1 : ℤ) : ℚ) ≤ (((m - n)^2 : ℤ) : ℚ) := by exact_mod_cast h1
    push_cast at this
    linarith
  have hg2 : (0 : ℚ) < grid_size^2 := by norm_num [grid_size]
  have hab : a - b = ((m : ℚ) - n) * grid_size := by rw [ha, hb]; ring
  rw [hab]
  nlinarith [h1q, hg2]

/-- Two lattice points either share the quantized key or are at least
grid_size apart in the x-z plane. -/
theorem lattice_key_or_far (p q : Pt3) (hp : LatticeXZ p) (hq : LatticeXZ q) :
    key_for_point p.x p.z = key_for_point q.x q.z ∨ grid_size^2 ≤ distXZSq p q := by
  obtain ⟨i, hi⟩ := (latq_iff p.x).mp hp.1
  obtain ⟨k, hk⟩ := (latq_iff p.z).mp hp.2
  obtain ⟨j, hj⟩ := (latq_iff q.x).mp hq.1
  obtain ⟨l, hl⟩ := (latq_iff q.z).mp hq.2
  by_cases hx : p.x = q.x
  · by_cases hz : p.z = q.z
    · left; rw [hx, hz]
    · right
      have h2 := lattice_sq_ge p.z q.z k l hk hl hz
      have h3 : (0 : ℚ) ≤ (p.x - q.x)^2 := sq_nonneg _
      simp only [distXZSq, distanceSq, Pt3.xz]
      linarith
  · right
    have h2 := lattice_sq_ge p.x q.x i j hi hj hx
    have h3 : (0 : ℚ) ≤ (p.z - q.z)^2 := sq_nonneg _
    simp only [distXZSq, distanceSq, Pt3.xz]
    linarith

/-- enqueue_point leaves grid_points and allow_enqueue untouched. -/
theorem enqueue_point_grid (st : BFSState) (sp : BFSSearchPoint) :
    (BFSController.enqueue_point st sp).grid_points = st.grid_points ∧
    (BFSController.enqueue_point st sp).allow_enqueue = st.allow_enqueue := by
  unfold BFSController.enqueue_point
  split <;> exact ⟨rfl, rfl⟩

/-- Any property of queue entries is preserved by enqueue_point when the
candidate satisfies it. -/
theorem enqueue_point_queue_all (P : BFSSearchPoint → Prop) (st : BFSState)
    (sp : BFSSearchPoint) (hst : ∀ x ∈ st.queue, P x) (hsp : P sp) :
    ∀ x ∈ (BFSController.enqueue_point st sp).queue, P x := by
  intro x hx
  unfold BFSController.enqueue_point at hx
  split at hx
  · exact hst x hx
  · simp only [List.mem_append, List.mem_singleton] at hx
    rcases hx with hx | rfl
    · exact hst x hx
    · exact hsp

theorem enqueue_points_grid (st : BFSState) (pos : Pt3) :
    (BFSController.enqueue_points st pos).grid_points = st.grid_points ∧
    (BFSController.enqueue_points st pos).allow_enqueue = st.allow_enqueue := by
  unfold BFSController.enqueue_points
  split
  · exact ⟨rfl, rfl⟩
  · constructor
    · rw [(enqueue_point_grid _ _).1, (enqueue_point_grid _ _).1,
          (enqueue_point_grid _ _).1, (enqueue_point_grid _ _).1]
    · rw [(enqueue_point_grid _ _).2, (enqueue_point_grid _ _).2,
          (enqueue_point_grid _ _).2, (enqueue_point_grid _ _).2]

theorem enqueue_points_queue_lattice (st : BFSState) (pos : Pt3)
    (hst : ∀ x ∈ st.queue, LatticeSP x) (hpos : LatticeXZ pos) :
    ∀ x ∈ (BFSController.enqueue_points st pos).queue, LatticeSP x := by
  unfold BFSController.enqueue_points
  split
  · exact hst
  · have hd1 : ((-grid_size : ℚ) / grid_size).den = 1 := by with_unfolding_all decide
    have hd2 : ((grid_size : ℚ) / grid_size).den = 1 := by with_unfolding_all decide
    have hd0 : ((0 : ℚ) / grid_size).den = 1 := by with_unfolding_all decide
    exact enqueue_point_queue_all _ _ _
      (enqueue_point_queue_all _ _ _
        (enqueue_point_queue_all _ _ _
          (enqueue_point_queue_all _ _ _ hst ⟨hpos, hd1, hd0⟩)
          ⟨hpos, hd2, hd0⟩)
        ⟨hpos, hd0, hd1⟩)
      ⟨hpos, hd0, hd2⟩

/-- queue_step preserves the lattice invariant for exact engines. -/
theorem queue_step_lattice (eng : Engine) (hex : Engine.Exact eng) (st st2 : BFSState)
    (hinv : LatticeInv st) (h : BFSController.queue_step eng st = some st2) :
    LatticeInv st2 := by
  obtain ⟨hq, hg⟩ := hinv
  unfold BFSController.queue_step at h
  split at h
  · exact absurd h (by simp)
  next sp rest hqe =>
    have hsp : LatticeSP sp := hq sp (by rw [hqe]; exact List.mem_cons_self _ _)
    have hrest : ∀ x ∈ rest, LatticeSP x := fun x hx => hq x (by rw [hqe]; exact List.mem_cons_of_mem _ hx)
    split at h
    · split at h
      next pos hmv =>
        split at h
        · exact absurd h (by simp)
        next hy =>
          obtain ⟨hpx, hpz⟩ := hex _ _ _ _ hmv
          have hpos : LatticeXZ pos := by
            refine ⟨?_, ?_⟩
            · rw [hpx]; exact latq_add _ _ hsp.1.1 hsp.2.1
            · rw [hpz]; exact latq_add _ _ hsp.1.2 hsp.2.2
          cases h
          constructor
          · intro x hx
            exact enqueue_points_queue_lattice { st with queue := rest } pos hrest hpos x hx
          · intro p hp
            rw [(enqueue_points_grid { st with queue := rest } pos).1] at hp
            simp only [List.mem_append, List.mem_singleton] at hp
            rcases hp with hp | rfl
            · exact hg p hp
            · exact hpos
      next hmv =>
        cases h
        exact ⟨hrest, hg⟩
    · exact absurd h (by simp)

theorem runSearch_lattice (eng : Engine) (hex : Engine.Exact eng) :
    ∀ (fuel : ℕ) (st st2 : BFSState), LatticeInv st →
      runSearch eng fuel st = some st2 → LatticeInv st2 := by
  intro fuel
  induction fuel with
  | zero =>
    intro st st2 hinv h
    cases h
    exact hinv
  | succ n ih =>
    intro st st2 hinv h
    unfold runSearch at h
    split at h
    · cases h; exact hinv
    · cases hq : BFSController.queue_step eng st with
      | some stm =>
        rw [hq] at h
        exact ih stm st2 (queue_step_lattice eng hex st stm hinv hq) h
      | none => rw [hq] at h; exact absurd h (by simp)

/-- C7 (amended): after any number of exploration steps from a
lattice-aligned state, provided every successful Move lands exactly on its
requested target point, any two accepted grid points either share the
quantized key or their x-z distance is at least grid_size (hence at least
grid_size minus any small epsilon). -/
theorem C7_dedup_lattice (eng : Engine) (hex : Engine.Exact eng) (fuel : ℕ)
    (st st2 : BFSState) (hinv : LatticeInv st)
    (hrun : runSearch eng fuel st = some st2) :
    ∀ p ∈ st2.grid_points, ∀ q ∈ st2.grid_points,
      key_for_point p.x p.z = key_for_point q.x q.z ∨ grid_size^2 ≤ distXZSq p q := by
  intro p hp q hq
  obtain ⟨-, hg⟩ := runSearch_lattice eng hex fuel st st2 hinv hrun
  exact lattice_key_or_far p q (hg p hp) (hg q hq)

theorem engineExact_exact : Engine.Exact engineExact := by
  intro s dx dz p h
  simp only [engineExact, Option.some_inj] at h
  rw [← h]
  exact ⟨rfl, rfl⟩

theorem C6_witness :
    ((start_search_init [⟨0, 0, 0⟩]).allow_enqueue = false ∧
     (start_search_init [⟨0, 0, 0⟩]).queue =
       (⟨⟨0, 0, 0⟩, -(1/4), 0, 0, 0⟩ : BFSSearchPoint) ::
         [⟨⟨0, 0, 0⟩, 1/4, 0, 0, 0⟩, ⟨⟨0, 0, 0⟩, 0, -(1/4), 0, 0⟩, ⟨⟨0, 0, 0⟩, 0, 1/4, 0, 0⟩] ∧
     engineExact.teleportOk (⟨⟨0, 0, 0⟩, -(1/4), 0, 0, 0⟩ : BFSSearchPoint).start_position = true ∧
     engineExact.move (⟨⟨0, 0, 0⟩, -(1/4), 0, 0, 0⟩ : BFSSearchPoint).start_position
         (⟨⟨0, 0, 0⟩, -(1/4), 0, 0, 0⟩ : BFSSearchPoint).moveX
         (⟨⟨0, 0, 0⟩, -(1/4), 0, 0, 0⟩ : BFSSearchPoint).moveZ = some ⟨-(1/4), 0, 0⟩ ∧
     ¬ (⟨-(1/4), 0, 0⟩ : Pt3).y > 13/10) ∧
    BFSController.queue_step engineExact (start_search_init [⟨0, 0, 0⟩]) =
      some { start_search_init [⟨0, 0, 0⟩] with
             queue := [⟨⟨0, 0, 0⟩, 1/4, 0, 0, 0⟩, ⟨⟨0, 0, 0⟩, 0, -(1/4), 0, 0⟩,
                       ⟨⟨0, 0, 0⟩, 0, 1/4, 0, 0⟩],
             grid_points := (start_search_init [⟨0, 0, 0⟩]).grid_points ++ [⟨-(1/4), 0, 0⟩] } :=
  ⟨⟨by with_unfolding_all decide, by with_unfolding_all decide, rfl,
    by with_unfolding_all decide, by with_unfolding_all decide⟩,
   C6_seeded_step_no_new_candidates engineExact (start_search_init [⟨0, 0, 0⟩])
     ⟨⟨0, 0, 0⟩, -(1/4), 0, 0, 0⟩
     [⟨⟨0, 0, 0⟩, 1/4, 0, 0, 0⟩, ⟨⟨0, 0, 0⟩, 0, -(1/4), 0, 0⟩, ⟨⟨0, 0, 0⟩, 0, 1/4, 0, 0⟩]
     ⟨-(1/4), 0, 0⟩
     (by with_unfolding_all decide) (by with_unfolding_all decide) rfl
     (by with_unfolding_all decide) (by with_unfolding_all decide)⟩

theorem C7_witness :
    (Engine.Exact engineExact ∧
     LatticeInv (start_search_init [⟨0, 0, 0⟩]) ∧
     runSearch engineExact 1 (start_search_init [⟨0, 0, 0⟩]) =
       some { queue := [⟨⟨0, 0, 0⟩, 1/4, 0, 0, 0⟩, ⟨⟨0, 0, 0⟩, 0, -(1/4), 0, 0⟩,
                        ⟨⟨0, 0, 0⟩, 0, 1/4, 0, 0⟩],
              seen_points := [⟨-(1/4), 0⟩, ⟨1/4, 0⟩, ⟨0, -(1/4)⟩, ⟨0, 1/4⟩],
              grid_points := [⟨-(1/4), 0, 0⟩],
              allow_enqueue := false }) ∧
    (∀ p ∈ ({ queue := [⟨⟨0, 0, 0⟩, 1/4, 0, 0, 0⟩, ⟨⟨0, 0, 0⟩, 0, -(1/4), 0, 0⟩,
                        ⟨⟨0, 0, 0⟩, 0, 1/4, 0, 0⟩],
              seen_points := [⟨-(1/4), 0⟩, ⟨1/4, 0⟩, ⟨0, -(1/4)⟩, ⟨0, 1/4⟩],
              grid_points := [⟨-(1/4), 0, 0⟩],
              allow_enqueue := false } : BFSState).grid_points,
      ∀ q ∈ ({ queue := [⟨⟨0, 0, 0⟩, 1/4, 0, 0, 0⟩, ⟨⟨0, 0, 0⟩, 0, -(1/4), 0, 0⟩,
                         ⟨⟨0, 0, 0⟩, 0, 1/4, 0, 0⟩],
               seen_points := [⟨-(1/4), 0⟩, ⟨1/4, 0⟩, ⟨0, -(1/4)⟩, ⟨0, 1/4⟩],
               grid_points := [⟨-(1/4), 0, 0⟩],
               allow_enqueue := false } : BFSState).grid_points,
        key_for_point p.x p.z = key_for_point q.x q.z ∨ grid_size^2 ≤ distXZSq p q) :=
  ⟨⟨engineExact_exact, by with_unfolding_all decide, by with_unfolding_all decide⟩,
   C7_dedup_lattice engineExact engineExact_exact 1 (start_search_init [⟨0, 0, 0⟩]) _
     (by with_unfolding_all decide) (by with_unfolding_all decide)⟩

/-! ## Theorems about has_islands (claim C4) -/

/-- C4, counterexample to the claim as stated: the two points (0, 0) and
(0.15, 0.2) are at x-z distance exactly grid_size, so the claim's graph
(edges at grid_size within any nonnegative tolerance) is connected; but
has_islands answers true, because its flood fill only connects points lying
within 0.05 of an axis-aligned grid_size offset of a seen point. -/
theorem C4_counterexample :
    BFSController.has_islands [⟨0, 0, 0⟩, ⟨3/20, 0, 1/5⟩] = some true ∧
    ∀ q ∈ ([⟨0, 0, 0⟩, ⟨3/20, 0, 1/5⟩] : List Pt3),
      specRingReach [⟨0, 0, 0⟩, ⟨3/20, 0, 1/5⟩] (1/100) ⟨0, 0, 0⟩ q := by
  constructor
  · with_unfolding_all decide
  · intro q hq
    rcases List.mem_cons.mp hq with rfl | hq
    · exact Relation.ReflTransGen.refl
    rcases List.mem_cons.mp hq with rfl | hq
    · exact Relation.ReflTransGen.single
        ⟨by simp, by with_unfolding_all decide⟩
    · exact absurd hq (List.not_mem_nil _)

theorem enqueue_island_invExc (grid : List Pt3) (g0 : Pt3) (c0 : Pt2) (st : FloodState)
    (p : Pt3) (hp : p ∈ grid) (hr : FloodReach grid g0 p)
    (hinv : FloodInvExc grid g0 c0 st) :
    FloodInvExc grid g0 c0 (enqueue_island_points st p) ∧
    st.seen ⊆ (enqueue_island_points st p).seen ∧
    p ∈ (enqueue_island_points st p).seen ∧
    floodMeasure grid (enqueue_island_points st p) ≤ floodMeasure grid st := by
  obtain ⟨hnd, hsubg, hre, hqw, hclo⟩ := hinv
  unfold enqueue_island_points
  split
  next hin => exact ⟨⟨hnd, hsubg, hre, hqw, hclo⟩, fun x hx => hx, hin, le_refl _⟩
  next hin =>
    refine ⟨⟨?_, ?_, ?_, ?_, ?_⟩, ?_, ?_, ?_⟩
    · exact List.nodup_cons.mpr ⟨hin, hnd⟩
    · intro q hq
      rcases List.mem_cons.mp hq with rfl | hq
      · exact hp
      · exact hsubg q hq
    · intro q hq
      rcases List.mem_cons.mp hq with rfl | hq
      · exact hr
      · exact hre q hq
    · intro c hc
      rcases List.mem_append.mp hc with hc | hc
      · exact ⟨p, List.mem_cons_self _ _, List.mem_reverse.mp hc⟩
      · obtain ⟨q, hq, hcq⟩ := hqw c hc
        exact ⟨q, List.mem_cons_of_mem _ hq, hcq⟩
    · intro q hq c hc
      rcases List.mem_cons.mp hq with rfl | hq
      · exact Or.inl (List.mem_append_left _ (List.mem_reverse.mpr hc))
      · rcases hclo q hq c hc with h | h | h
        · exact Or.inl (List.mem_append_right _ h)
        · exact Or.inr (Or.inl h)
        · exact Or.inr (Or.inr (fun r hr2 hd => List.mem_cons_of_mem _ (h r hr2 hd)))
    · exact fun x hx => List.mem_cons_of_mem _ hx
    · exact List.mem_cons_self _ _
    · have hcnt : unseenCount grid (p :: st.seen) + 1 = unseenCount grid st.seen := by
        unfold unseenCount
        have heq : grid.dedup.filter (fun q => decide (q ∉ p :: st.seen)) =
            (grid.dedup.filter (fun q => decide (q ∉ st.seen))).filter (fun q => decide (q ≠ p)) := by
          rw [List.filter_filter]
          apply List.filter_congr
          intro q _
          simp only [List.mem_cons, decide_not, Bool.and_comm]
          by_cases h1 : q = p <;> by_cases h2 : q ∈ st.seen <;> simp [h1, h2]
        rw [heq]
        have hnds : ((grid.dedup.filter (fun q => decide (q ∉ st.seen)))).Nodup :=
          (List.nodup_dedup grid).filter _
        have hpmem : p ∈ grid.dedup.filter (fun q => decide (q ∉ st.seen)) := by
          rw [List.mem_filter]
          exact ⟨List.mem_dedup.mpr hp, by simpa using hin⟩
        have herase : (grid.dedup.filter (fun q => decide (q ∉ st.seen))).filter
            (fun q => decide (q ≠ p)) =
            (grid.dedup.filter (fun q => decide (q ∉ st.seen))).erase p := by
          rw [List.Nodup.erase_eq_filter hnds]
          apply List.filter_congr
          intro q _
          by_cases h : q = p <;> simp [h]
        rw [herase, List.length_erase_of_mem hpmem]
        have : 1 ≤ (grid.dedup.filter (fun q => decide (q ∉ st.seen))).length :=
          List.length_pos.mpr (List.ne_nil_of_mem hpmem)
        omega
      unfold floodMeasure
      simp only [List.length_append, List.length_reverse]
      have h4 : ((islandOffsets p).length : ℕ) = 4 := rfl
      omega

theorem floodMatchGo_inv (grid : List Pt3) (g0 : Pt3) (c : Pt2)
    (hreach : ∀ p ∈ grid, distanceSq c p.xz < (1/20)^2 → FloodReach grid g0 p) :
    ∀ (ps : List Pt3) (st : FloodState), (∀ p ∈ ps, p ∈ grid) →
      FloodInvExc grid g0 c st →
      FloodInvExc grid g0 c (floodMatchGo c ps st) ∧
      st.seen ⊆ (floodMatchGo c ps st).seen ∧
      (∀ p ∈ ps, distanceSq c p.xz < (1/20)^2 → p ∈ (floodMatchGo c ps st).seen) ∧
      floodMeasure grid (floodMatchGo c ps st) ≤ floodMeasure grid st := by
  intro ps
  induction ps with
  | nil =>
    intro st _ hinv
    exact ⟨hinv, fun x hx => hx, by simp, le_refl _⟩
  | cons p ps ih =>
    intro st hps hinv
    simp only [floodMatchGo]
    by_cases hd : distanceSq c p.xz < (1/20)^2
    · rw [if_pos hd]
      have hp : p ∈ grid := hps p (List.mem_cons_self _ _)
      obtain ⟨hinv2, hsub2, hmem2, hle2⟩ :=
        enqueue_island_invExc grid g0 c st p hp (hreach p hp hd) hinv
      obtain ⟨hinv3, hsub3, hall3, hle3⟩ :=
        ih (enqueue_island_points st p) (fun q hq => hps q (List.mem_cons_of_mem _ hq)) hinv2
      refine ⟨hinv3, fun x hx => hsub3 (hsub2 hx), ?_, le_trans hle3 hle2⟩
      intro q hq hqd
      rcases List.mem_cons.mp hq with rfl | hq
      · exact hsub3 hmem2
      · exact hall3 q hq hqd
    · rw [if_neg hd]
      obtain ⟨hinv3, hsub3, hall3, hle3⟩ :=
        ih st (fun q hq => hps q (List.mem_cons_of_mem _ hq)) hinv
      refine ⟨hinv3, hsub3, ?_, hle3⟩
      intro q hq hqd
      rcases List.mem_cons.mp hq with rfl | hq
      · exact absurd hqd hd
      · exact hall3 q hq hqd

theorem flood_loop_step (grid : List Pt3) (g0 : Pt3) (c : Pt2) (qs : List Pt2)
    (st : FloodState) (hq : st.queue = c :: qs) (hinv : FloodInv grid g0 st) :
    FloodInv grid g0 (floodMatch grid c ⟨qs, st.seen⟩) ∧
    st.seen ⊆ (floodMatch grid c ⟨qs, st.seen⟩).seen ∧
    floodMeasure grid (floodMatch grid c ⟨qs, st.seen⟩) < floodMeasure grid st := by
  obtain ⟨hnd, hsubg, hre, hqw, hclo⟩ := hinv
  have hreach : ∀ p ∈ grid, distanceSq c p.xz < (1/20)^2 → FloodReach grid g0 p := by
    intro p hp hd
    obtain ⟨pw, hpw, hcw⟩ := hqw c (by rw [hq]; exact List.mem_cons_self _ _)
    exact Relation.ReflTransGen.tail (hre pw hpw) ⟨hp, c, hcw, hd⟩
  have hexc : FloodInvExc grid g0 c ⟨qs, st.seen⟩ := by
    refine ⟨hnd, hsubg, hre, ?_, ?_⟩
    · intro c2 hc2
      exact hqw c2 (by rw [hq]; exact List.mem_cons_of_mem _ hc2)
    · intro p hp c2 hc2
      rcases hclo p hp c2 hc2 with hin | hcl
      · rw [hq] at hin
        rcases List.mem_cons.mp hin with rfl | hin
        · exact Or.inr (Or.inl rfl)
        · exact Or.inl hin
      · exact Or.inr (Or.inr hcl)
  obtain ⟨⟨hnd2, hsubg2, hre2, hqw2, hclo2⟩, hsub2, hall2, hle2⟩ :=
    floodMatchGo_inv grid g0 c hreach grid ⟨qs, st.seen⟩ (fun p hp => hp) hexc
  refine ⟨⟨hnd2, hsubg2, hre2, hqw2, ?_⟩, hsub2, ?_⟩
  · intro p hp c2 hc2
    rcases hclo2 p hp c2 hc2 with h | h | h
    · exact Or.inl h
    · subst h
      exact Or.inr (fun r hr hdr => hall2 r hr hdr)
    · exact Or.inr h
  · have hms : floodMeasure grid ⟨qs, st.seen⟩ + 1 = floodMeasure grid st := by
      unfold floodMeasure
      rw [hq]
      simp [List.length_cons]
      omega
    unfold floodMatch
    omega

theorem floodLoopF_correct (grid : List Pt3) (g0 : Pt3) :
    ∀ (fuel : ℕ) (st : FloodState), FloodInv grid g0 st →
      floodMeasure grid st < fuel →
      (floodLoopF grid fuel st).queue = [] ∧
      FloodInv grid g0 (floodLoopF grid fuel st) ∧
      st.seen ⊆ (floodLoopF grid fuel st).seen := by
  intro fuel
  induction fuel with
  | zero => intro st _ h; omega
  | succ n ih =>
    intro st hinv hlt
    cases hq : st.queue with
    | nil =>
      have hres : floodLoopF grid (n + 1) st = st := by
        simp only [floodLoopF, hq]
      rw [hres]
      exact ⟨hq, hinv, fun x hx => hx⟩
    | cons c qs =>
      have hres : floodLoopF grid (n + 1) st =
          floodLoopF grid n (floodMatch grid c ⟨qs, st.seen⟩) := by
        simp only [floodLoopF, hq]
      rw [hres]
      obtain ⟨hinv2, hsub2, hlt2⟩ := flood_loop_step grid g0 c qs st hq hinv
      have hlt3 : floodMeasure grid (floodMatch grid c ⟨qs, st.seen⟩) < n := by omega
      obtain ⟨hq3, hinv3, hsub3⟩ := ih (floodMatch grid c ⟨qs, st.seen⟩) hinv2 hlt3
      exact ⟨hq3, hinv3, fun x hx => hsub3 (hsub2 hx)⟩

/-- With an empty work list the seen set is exactly the flood-reachable
part of the grid. -/
theorem flood_final_all (grid : List Pt3) (g0 : Pt3) (st : FloodState)
    (hq : st.queue = []) (hinv : FloodInv grid g0 st) (hg0 : g0 ∈ st.seen) :
    ∀ r, r ∈ st.seen ↔ r ∈ grid ∧ FloodReach grid g0 r := by
  obtain ⟨hnd, hsubg, hre, hqw, hclo⟩ := hinv
  intro r
  constructor
  · intro h
    exact ⟨hsubg r h, hre r h⟩
  · rintro ⟨-, hreach⟩
    induction hreach with
    | refl => exact hg0
    | tail hab hstep ih =>
      obtain ⟨hcg, c2, hc2, hd2⟩ := hstep
      rcases hclo _ ih c2 hc2 with hinq | hcl
      · rw [hq] at hinq
        exact absurd hinq (List.not_mem_nil _)
      · exact hcl _ hcg hd2

/-- C4 (amended): for a non-empty duplicate-free grid, has_islands returns
true iff some grid point is not flood-reachable from the first grid point,
where one flood step goes from p to any grid point within 0.05 of one of
p's four axis-aligned grid_size offsets (not: within epsilon of distance
grid_size, as the claim stated). -/
theorem C4_flood_disconnection (g0 : Pt3) (rest : List Pt3)
    (hnd : (g0 :: rest).Nodup) :
    (BFSController.has_islands (g0 :: rest) = some true ↔
      ¬ ∀ r ∈ (g0 :: rest), FloodReach (g0 :: rest) g0 r) := by
  have hfuel : floodMeasure (g0 :: rest) (enqueue_island_points ⟨[], []⟩ g0) <
      floodFuel (g0 :: rest) := by
    have h1 : unseenCount (g0 :: rest) [g0] ≤ (g0 :: rest).dedup.length :=
      List.length_filter_le _ _
    unfold floodMeasure floodFuel enqueue_island_points
    simp [unseenCount] at h1 ⊢
    have hc : (islandOffsets g0).length = 4 := rfl
    omega
  have hinv0 : FloodInv (g0 :: rest) g0 (enqueue_island_points ⟨[], []⟩ g0) := by
    unfold enqueue_island_points
    rw [if_neg (List.not_mem_nil g0)]
    refine ⟨List.nodup_singleton g0, ?_, ?_, ?_, ?_⟩
    · intro p hp
      rcases List.mem_singleton.mp hp with rfl
      exact List.mem_cons_self _ _
    · intro p hp
      rcases List.mem_singleton.mp hp with rfl
      exact Relation.ReflTransGen.refl
    · intro c hc
      rw [List.append_nil] at hc
      exact ⟨g0, List.mem_singleton_self _, List.mem_reverse.mp hc⟩
    · intro p hp c hc
      rcases List.mem_singleton.mp hp with rfl
      exact Or.inl (by rw [List.append_nil]; exact List.mem_reverse.mpr hc)
  obtain ⟨hqfin, hinvfin, hsubfin⟩ :=
    floodLoopF_correct (g0 :: rest) g0 (floodFuel (g0 :: rest))
      (enqueue_island_points ⟨[], []⟩ g0) hinv0 hfuel
  set stf := floodLoopF (g0 :: rest) (floodFuel (g0 :: rest))
      (enqueue_island_points ⟨[], []⟩ g0) with hstf
  have hg0seen : g0 ∈ stf.seen := by
    apply hsubfin
    unfold enqueue_island_points
    rw [if_neg (List.not_mem_nil g0)]
    exact List.mem_singleton_self _
  have hchar := flood_final_all (g0 :: rest) g0 stf hqfin hinvfin hg0seen
  obtain ⟨hndf, hsubgf, -, -, -⟩ := hinvfin
  have hmain : BFSController.has_islands (g0 :: rest) =
      some (decide (stf.seen.length ≠ (g0 :: rest).length)) := rfl
  rw [hmain, Option.some_inj, decide_eq_true_eq]
  constructor
  · intro hne hall
    apply hne
    have hgs : ∀ r ∈ (g0 :: rest), r ∈ stf.seen := by
      intro r hr
      exact (hchar r).mpr ⟨hr, hall r hr⟩
    have hsp1 : stf.seen.Subperm (g0 :: rest) := hndf.subperm hsubgf
    have hsp2 : (g0 :: rest).Subperm stf.seen := hnd.subperm hgs
    exact (hsp1.antisymm hsp2).length_eq
  · intro hnall
    push_neg at hnall
    obtain ⟨r, hrg, hnr⟩ := hnall
    have hrns : r ∉ stf.seen := by
      intro hrs
      exact hnr ((hchar r).mp hrs).2
    have hsub : ∀ x ∈ stf.seen, x ∈ (g0 :: rest).erase r := by
      intro x hx
      have hxg : x ∈ (g0 :: rest) := hsubgf x hx
      have hxr : x ≠ r := fun h => hrns (h ▸ hx)
      exact (List.mem_erase_of_ne hxr).mpr hxg
    have hsp : stf.seen.Subperm ((g0 :: rest).erase r) := hndf.subperm hsub
    have hlen := hsp.length_le
    rw [List.length_erase_of_mem hrg] at hlen
    have hpos : 1 ≤ (g0 :: rest).length := by simp [List.length_cons]
    omega

theorem C4_witness :
    ([⟨0, 0, 0⟩, ⟨1/4, 0, 0⟩] : List Pt3).Nodup ∧
    (BFSController.has_islands [⟨0, 0, 0⟩, ⟨1/4, 0, 0⟩] = some true ↔
      ¬ ∀ r ∈ ([⟨0, 0, 0⟩, ⟨1/4, 0, 0⟩] : List Pt3),
          FloodReach [⟨0, 0, 0⟩, ⟨1/4, 0, 0⟩] ⟨0, 0, 0⟩ r) :=
  ⟨by with_unfolding_all decide,
   C4_flood_disconnection ⟨0, 0, 0⟩ [⟨1/4, 0, 0⟩] (by with_unfolding_all decide)⟩

/-! ## Theorems about shortest_plan (claim C3) -/

theorem rhe_intCast (n : ℤ) : rhe (n : ℚ) = n := by
  unfold rhe
  rw [Int.floor_intCast]
  norm_num

theorem sq_one_cases (di dj : ℤ) (h : di^2 + dj^2 = 1) :
    (di = 0 ∧ dj = 1) ∨ (di = 1 ∧ dj = 0) ∨ (di = 0 ∧ dj = -1) ∨ (di = -1 ∧ dj = 0) := by
  have h1 : -1 ≤ di := by nlinarith [sq_nonneg dj, sq_nonneg (di + 1)]
  have h2 : di ≤ 1 := by nlinarith [sq_nonneg dj, sq_nonneg (di - 1)]
  have h3 : -1 ≤ dj := by nlinarith [sq_nonneg di, sq_nonneg (dj + 1)]
  have h4 : dj ≤ 1 := by nlinarith [sq_nonneg di, sq_nonneg (dj - 1)]
  interval_cases di <;> interval_cases dj <;> (revert h; decide)

/-- For a canonical rotation and a cardinal offset, the action_orientation
match succeeds, names a translation action, and executing that action
translates the pose by exactly one grid step along the offset. -/
theorem matchEntry_exec (r di dj : ℤ)
    (hr : r ∈ ([0, 90, 180, 270] : List ℤ))
    (hsq : di^2 + dj^2 = 1) :
    ∃ name, BFSController.matchEntry r di dj action_orientation = some (some name) ∧
      name.isTranslation = true ∧
      ∀ (pos : Pt2) (hor : ℤ),
        execAction ⟨pos, r, hor⟩ name =
          some ⟨⟨pos.x + grid_size * di, pos.z + grid_size * dj⟩, r, hor⟩ := by
  fin_cases hr <;>
    rcases sq_one_cases di dj hsq with ⟨rfl, rfl⟩ | ⟨rfl, rfl⟩ | ⟨rfl, rfl⟩ | ⟨rfl, rfl⟩ <;>
    exact ⟨_, rfl, rfl, fun pos hor => rfl⟩

/-- For a fixed canonical rotation, the matched action name determines the
cardinal offset. -/
theorem matchEntry_inj (r : ℤ) (hr : r ∈ ([0, 90, 180, 270] : List ℤ))
    (di1 dj1 di2 dj2 : ℤ) (h1 : di1^2 + dj1^2 = 1) (h2 : di2^2 + dj2^2 = 1)
    (name : ActName)
    (e1 : BFSController.matchEntry r di1 dj1 action_orientation = some (some name))
    (e2 : BFSController.matchEntry r di2 dj2 action_orientation = some (some name)) :
    di1 = di2 ∧ dj1 = dj2 := by
  rcases sq_one_cases di1 dj1 h1 with ⟨rfl, rfl⟩ | ⟨rfl, rfl⟩ | ⟨rfl, rfl⟩ | ⟨rfl, rfl⟩ <;>
  rcases sq_one_cases di2 dj2 h2 with ⟨rfl, rfl⟩ | ⟨rfl, rfl⟩ | ⟨rfl, rfl⟩ | ⟨rfl, rfl⟩ <;>
  fin_cases hr <;>
  revert name <;>
  decide

/-- The all_points dict resolves the key of a grid point to that point when
keys are duplicate-free. -/
theorem allPointsGet_eq (grid : List Pt3)
    (hkeys : (grid.map BFSController.key_for_point).Nodup)
    (q : Pt3) (hq : q ∈ grid) :
    BFSController.allPointsGet grid (BFSController.key_for_point q) = some q := by
  have hinj := List.inj_on_of_nodup_map hkeys
  unfold BFSController.allPointsGet
  cases hf : grid.reverse.find?
      (fun p => decide (BFSController.key_for_point p = BFSController.key_for_point q)) with
  | none =>
    exfalso
    have h2 := List.find?_eq_none.mp hf q (List.mem_reverse.mpr hq)
    simp at h2
  | some r =>
    have hr1 := List.find?_some hf
    have hr2 := List.mem_of_find?_eq_some hf
    have hrq : r = q := hinj (List.mem_reverse.mp hr2) hq (by simpa using hr1)
    rw [hrq]


theorem dictGet_cons {κ α : Type} [DecidableEq κ] (k1 : κ) (v1 : α) (d : List (κ × α)) (k : κ) :
    dictGet ((k1, v1) :: d) k = if k1 = k then some v1 else dictGet d k := by
  unfold dictGet
  rw [List.find?_cons]
  by_cases h : k1 = k
  · simp [h]
  · simp [h]

theorem dictGet_dictInsert {κ α : Type} [DecidableEq κ] (d : List (κ × α)) (k k' : κ) (v : α) :
    dictGet (dictInsert d k v) k' = if k = k' then some v else dictGet d k' := by
  induction d with
  | nil =>
    show dictGet [(k, v)] k' = _
    rw [dictGet_cons]
  | cons e d ih =>
    obtain ⟨k1, v1⟩ := e
    by_cases he : k1 = k
    · rw [show dictInsert ((k1, v1) :: d) k v = (k1, v) :: d from by simp [dictInsert, he]]
      rw [dictGet_cons, dictGet_cons]
      by_cases h : k = k'
      · rw [if_pos h, if_pos (he.trans h)]
      · rw [if_neg h, if_neg (fun hh : k1 = k' => h (he.symm.trans hh))]
        rw [if_neg (fun hh : k1 = k' => h (he.symm.trans hh))]
    · rw [show dictInsert ((k1, v1) :: d) k v = (k1, v1) :: dictInsert d k v from by
        simp [dictInsert, he]]
      rw [dictGet_cons, dictGet_cons, ih]
      by_cases h1 : k1 = k'
      · rw [if_pos h1, if_pos h1, if_neg (fun hh : k = k' => he (h1.trans hh.symm))]
      · rw [if_neg h1, if_neg h1]

theorem dictInsert_fresh {κ α : Type} [DecidableEq κ] (d : List (κ × α)) (k : κ) (v : α)
    (h : ∀ e ∈ d, e.1 ≠ k) : dictInsert d k v = d ++ [(k, v)] := by
  induction d with
  | nil => rfl
  | cons e d ih =>
    obtain ⟨k1, v1⟩ := e
    have hne : k1 ≠ k := h (k1, v1) (List.mem_cons_self _ _)
    show (if k1 = k then _ else _) = _
    rw [if_neg hne, List.cons_append]
    rw [ih (fun e he => h e (List.mem_cons_of_mem _ he))]

/-- Looking a key up in a python dict built by inserting (f e, g e) over a
list: the last insertion for that key wins, falling back to the seed dict. -/
theorem dictGet_foldl_insert {κ α β : Type} [DecidableEq κ] (f : β → κ) (g : β → α) :
    ∀ (l : List β) (acc : List (κ × α)) (k : κ),
      dictGet (l.foldl (fun d e => dictInsert d (f e) (g e)) acc) k =
        ((l.reverse.find? (fun e => decide (f e = k))).map g).or (dictGet acc k) := by
  intro l
  induction l with
  | nil => intro acc k; simp
  | cons e l ih =>
    intro acc k
    simp only [List.foldl_cons, List.reverse_cons]
    rw [ih, List.find?_append]
    cases hf : l.reverse.find? (fun e2 => decide (f e2 = k)) with
    | some e2 => simp
    | none =>
      simp only [Option.none_or]
      rw [dictGet_dictInsert]
      by_cases h : f e = k
      · simp [List.find?_cons, h]
      · simp [List.find?_cons, h]

/-- On the lattice, a graph edge is exactly one cardinal grid step. -/
theorem edge_offsets (c q : Pt3) (hc : LatticeXZ c) (hq : LatticeXZ q)
    (he : BFSController.graphEdgeB c q = true) :
    ∃ di dj : ℤ, di^2 + dj^2 = 1 ∧ q.x - c.x = di * grid_size ∧ q.z - c.z = dj * grid_size := by
  obtain ⟨i, hi⟩ := (latq_iff c.x).mp hc.1
  obtain ⟨k, hk⟩ := (latq_iff c.z).mp hc.2
  obtain ⟨j, hj⟩ := (latq_iff q.x).mp hq.1
  obtain ⟨l, hl⟩ := (latq_iff q.z).mp hq.2
  unfold BFSController.graphEdgeB at he
  rw [Bool.and_eq_true, decide_eq_true_eq, decide_eq_true_eq] at he
  obtain ⟨hle, hpos⟩ := he
  have hdist : distXZSq c q = (((j - i)^2 + (l - k)^2 : ℤ) : ℚ) * grid_size^2 := by
    simp only [distXZSq, distanceSq, Pt3.xz]
    rw [hi, hj, hk, hl]
    push_cast
    ring
  refine ⟨j - i, l - k, ?_, by rw [hi, hj]; push_cast; ring, by rw [hk, hl]; push_cast; ring⟩
  have hs0 : 0 < (j - i)^2 + (l - k)^2 := by
    rcases lt_or_eq_of_le (by positivity : (0 : ℤ) ≤ (j - i)^2 + (l - k)^2) with h | h
    · exact h
    · exfalso
      rw [hdist, ← h] at hpos
      simp at hpos
  have hs1 : (j - i)^2 + (l - k)^2 ≤ 1 := by
    by_contra hns
    push_neg at hns
    have h2 : (2 : ℚ) ≤ (((j - i)^2 + (l - k)^2 : ℤ) : ℚ) := by exact_mod_cast hns
    rw [hdist] at hle
    have hg : (grid_size : ℚ) = 1/4 := rfl
    rw [hg] at hle
    norm_num at hle h2
    nlinarith [hle, h2]
  omega

/-- Processing a duplicate-free list of neighbor keys accumulates a valid
move_points dict covering every processed key and preserving prior entries. -/
theorem mrpGo_spec (grid : List Pt3) (c : Pt3) (r : ℤ)
    (hr : r ∈ ([0, 90, 180, 270] : List ℤ))
    (hlat : ∀ p ∈ grid, LatticeXZ p)
    (hkeys : (grid.map BFSController.key_for_point).Nodup)
    (hc : c ∈ grid) :
    ∀ (ns : List Key3) (mp : List (ActName × Pt3)),
      ns.Nodup →
      (∀ n ∈ ns, ∃ qn ∈ grid, BFSController.key_for_point qn = n ∧
        BFSController.graphEdgeB c qn = true) →
      (∀ e ∈ mp, MrpValid grid c r e ∧ BFSController.key_for_point e.2 ∉ ns) →
      ∃ mpf, BFSController.mrpGo grid c r ns mp = some mpf ∧
        (∀ e ∈ mpf, MrpValid grid c r e) ∧
        (∀ n ∈ ns, ∃ e ∈ mpf, BFSController.key_for_point e.2 = n) ∧
        (∀ e ∈ mp, e ∈ mpf) := by
  intro ns
  induction ns with
  | nil =>
    intro mp _ _ hmp
    exact ⟨mp, rfl, fun e he => (hmp e he).1, by simp, fun e he => he⟩
  | cons n ns ih =>
    intro mp hnd hns hmp
    obtain ⟨qn, hqn, hkey, hedge⟩ := hns n (List.mem_cons_self _ _)
    obtain ⟨di, dj, hsq, hdx, hdz⟩ :=
      edge_offsets c qn (hlat c hc) (hlat qn hqn) hedge
    obtain ⟨name, hmatch, htrans, hexec⟩ := matchEntry_exec r di dj hr hsq
    have hg0 : (grid_size : ℚ) ≠ 0 := by norm_num [grid_size]
    have hget : BFSController.allPointsGet grid n = some qn := by
      rw [← hkey]
      exact allPointsGet_eq grid hkeys qn hqn
    have hxo : rhe ((qn.x - c.x) / grid_size) = di := by
      rw [hdx, mul_div_assoc, div_self hg0, mul_one, rhe_intCast]
    have hzo : rhe ((qn.z - c.z) / grid_size) = dj := by
      rw [hdz, mul_div_assoc, div_self hg0, mul_one, rhe_intCast]
    have hfresh : ∀ e ∈ mp, e.1 ≠ name := by
      intro e he hname
      obtain ⟨⟨hmem, di2, dj2, hsq2, hdx2, hdz2, hm2⟩, hnotin⟩ := hmp e he
      rw [hname] at hm2
      obtain ⟨hdi, hdj⟩ := matchEntry_inj r hr di2 dj2 di dj hsq2 hsq name hm2 hmatch
      have hx : e.2.x = qn.x := by rw [hdi] at hdx2; linarith [hdx, hdx2]
      have hz : e.2.z = qn.z := by rw [hdj] at hdz2; linarith [hdz, hdz2]
      apply hnotin
      have : BFSController.key_for_point e.2 = n := by
        rw [← hkey]
        unfold BFSController.key_for_point
        rw [hx, hz]
      rw [this]
      exact List.mem_cons_self _ _
    have hstep : BFSController.mrpGo grid c r (n :: ns) mp =
        BFSController.mrpGo grid c r ns (dictInsert mp name qn) := by
      simp only [BFSController.mrpGo, hget, hxo, hzo, hmatch]
    rw [hstep, dictInsert_fresh mp name qn hfresh]
    have hvalid : MrpValid grid c r (name, qn) := ⟨hqn, di, dj, hsq, hdx, hdz, hmatch⟩
    obtain ⟨mpf, hrun, hall, hcov, hsub⟩ :=
      ih (mp ++ [(name, qn)]) (List.Nodup.of_cons hnd)
        (fun m hm => hns m (List.mem_cons_of_mem _ hm))
        (by
          intro e he
          rcases List.mem_append.mp he with he | he
          · obtain ⟨hv, hni⟩ := hmp e he
            exact ⟨hv, fun hin => hni (List.mem_cons_of_mem _ hin)⟩
          · rcases List.mem_singleton.mp he with rfl
            refine ⟨hvalid, ?_⟩
            rw [hkey]
            exact (List.nodup_cons.mp hnd).1)
    refine ⟨mpf, hrun, hall, ?_, ?_⟩
    · intro m hm
      rcases List.mem_cons.mp hm with rfl | hm
      · exact ⟨(name, qn), hsub (name, qn) (List.mem_append_right _ (List.mem_singleton_self _)), hkey⟩
      · exact hcov m hm
    · intro e he
      exact hsub e (List.mem_append_left _ he)

theorem move_relative_points_spec (grid : List Pt3) (c : Pt3) (r : ℤ)
    (hr : r ∈ ([0, 90, 180, 270] : List ℤ))
    (hlat : ∀ p ∈ grid, LatticeXZ p)
    (hkeys : (grid.map BFSController.key_for_point).Nodup)
    (hc : c ∈ grid) (q : Pt3) (hq : q ∈ grid)
    (hedge : BFSController.graphEdgeB c q = true) :
    ∃ mpf, BFSController.move_relative_points grid c r = some mpf ∧
      (∀ e ∈ mpf, MrpValid grid c r e) ∧
      (∃ e ∈ mpf, BFSController.key_for_point e.2 = BFSController.key_for_point q) := by
  have hinj := List.inj_on_of_nodup_map hkeys
  have hndns : (BFSController.neighborKeys grid (BFSController.key_for_point c)).Nodup := by
    unfold BFSController.neighborKeys
    exact hkeys.sublist (List.Sublist.map _ (List.filter_sublist grid))
  have hns : ∀ n ∈ BFSController.neighborKeys grid (BFSController.key_for_point c),
      ∃ qn ∈ grid, BFSController.key_for_point qn = n ∧
        BFSController.graphEdgeB c qn = true := by
    intro n hn
    unfold BFSController.neighborKeys at hn
    obtain ⟨qn, hqn, hkeyn⟩ := List.mem_map.mp hn
    rw [List.mem_filter] at hqn
    obtain ⟨hqng, hany⟩ := hqn
    rw [List.any_eq_true] at hany
    obtain ⟨p, hp, hcond⟩ := hany
    rw [Bool.and_eq_true, decide_eq_true_eq] at hcond
    obtain ⟨hkp, hedgeb⟩ := hcond
    have hpc : p = c := hinj hp hc hkp
    exact ⟨qn, hqng, hkeyn, hpc ▸ hedgeb⟩
  have hqmem : BFSController.key_for_point q ∈
      BFSController.neighborKeys grid (BFSController.key_for_point c) := by
    unfold BFSController.neighborKeys
    apply List.mem_map_of_mem
    rw [List.mem_filter]
    refine ⟨hq, ?_⟩
    rw [List.any_eq_true]
    exact ⟨c, hc, by rw [Bool.and_eq_true, decide_eq_true_eq]; exact ⟨rfl, hedge⟩⟩
  obtain ⟨mpf, hrun, hall, hcov, -⟩ :=
    mrpGo_spec grid c r hr hlat hkeys hc
      (BFSController.neighborKeys grid (BFSController.key_for_point c)) [] hndns hns (by simp)
  exact ⟨mpf, hrun, hall, hcov _ hqmem⟩

theorem inv_lookup (mpf : List (ActName × Pt3)) (k : Key3)
    (hex : ∃ e ∈ mpf, BFSController.key_for_point e.2 = k) :
    ∃ name pt,
      dictGet (mpf.foldl (fun d e => dictInsert d (BFSController.key_for_point e.2) e.1) []) k
        = some name ∧ (name, pt) ∈ mpf ∧ BFSController.key_for_point pt = k := by
  have hfold := dictGet_foldl_insert (fun e : ActName × Pt3 => BFSController.key_for_point e.2)
    (fun e : ActName × Pt3 => e.1) mpf [] k
  rw [hfold]
  cases hf : mpf.reverse.find? (fun e => decide (BFSController.key_for_point e.2 = k)) with
  | none =>
    exfalso
    obtain ⟨e, he, hk⟩ := hex
    have h2 := List.find?_eq_none.mp hf e (List.mem_reverse.mpr he)
    simp [hk] at h2
  | some e =>
    have h1 := List.find?_some hf
    have h2 := List.mem_of_find?_eq_some hf
    refine ⟨e.1, e.2, by simp, ?_, by simpa using h1⟩
    simpa using List.mem_reverse.mp h2

theorem planLoop_spec (grid : List Pt3)
    (hlat : ∀ p ∈ grid, LatticeXZ p)
    (hkeys : (grid.map BFSController.key_for_point).Nodup)
    (r : ℤ) (hr : r ∈ ([0, 90, 180, 270] : List ℤ)) :
    ∀ (rest : List Key3) (current : Pt3), current ∈ grid →
      List.Chain (BFSController.edgeKey grid) (BFSController.key_for_point current) rest →
      ∃ (acts : List ActName) (endpt : Pt3),
        BFSController.planLoop grid r current rest = some acts ∧
        (∀ a ∈ acts, a.isTranslation = true) ∧
        endpt ∈ grid ∧
        (rest = [] → endpt = current) ∧
        (∀ k, rest.getLast? = some k → BFSController.key_for_point endpt = k) ∧
        (∀ hor : ℤ, execList ⟨current.xz, r, hor⟩ acts = some ⟨endpt.xz, r, hor⟩) := by
  have hinj := List.inj_on_of_nodup_map hkeys
  intro rest
  induction rest with
  | nil =>
    intro current hc _
    refine ⟨[], current, rfl, by simp, hc, fun _ => rfl, ?_, fun hor => rfl⟩
    intro k hk
    simp at hk
  | cons n rest ih =>
    intro current hc hchain
    rw [List.chain_cons] at hchain
    obtain ⟨hedge1, hchain2⟩ := hchain
    obtain ⟨p, hp, qn, hqn, hkp, hkq, hedgeb⟩ := hedge1
    have hpc : p = current := hinj hp hc hkp
    rw [hpc] at hedgeb
    obtain ⟨mpf, hmrp, hall, e0, he0, hkey0⟩ :=
      move_relative_points_spec grid current r hr hlat hkeys hc qn hqn hedgeb
    obtain ⟨name, pt, hlook, hptmem, hptk⟩ :=
      inv_lookup mpf (BFSController.key_for_point qn) ⟨e0, he0, hkey0⟩
    have hptgrid : pt ∈ grid := (hall (name, pt) hptmem).1
    have hptq : pt = qn := hinj hptgrid hqn hptk
    obtain ⟨-, di, dj, hsq, hdx, hdz, hm⟩ := hall (name, pt) hptmem
    rw [hptq] at hdx hdz
    obtain ⟨name2, hmatch2, htrans2, hexec2⟩ := matchEntry_exec r di dj hr hsq
    have hname2 : name2 = name := by
      have := hmatch2.symm.trans hm
      simpa using this
    have hget : BFSController.allPointsGet grid n = some qn := by
      rw [← hkq]
      exact allPointsGet_eq grid hkeys qn hqn
    have hchain3 : List.Chain (BFSController.edgeKey grid)
        (BFSController.key_for_point qn) rest := by
      rw [hkq]
      exact hchain2
    obtain ⟨acts, endpt, hloop, hallt, hend, hendnil, hendlast, hexecIH⟩ := ih qn hqn hchain3
    have hlook2 : dictGet
        (mpf.foldl (fun d e => dictInsert d (BFSController.key_for_point e.2) e.1) []) n =
        some name := by
      rw [← hkq]
      exact hlook
    refine ⟨name :: acts, endpt, ?_, ?_, hend, ?_, ?_, ?_⟩
    · simp only [BFSController.planLoop, hmrp, hlook2, hget, hloop, Option.map_some']
    · intro a ha
      rcases List.mem_cons.mp ha with rfl | ha
      · rw [← hname2]
        exact htrans2
      · exact hallt a ha
    · intro h
      exact absurd h (by simp)
    · intro k hk
      cases hrest : rest with
      | nil =>
        rw [hrest] at hk
        have hnk : n = k := by simpa using hk
        have hec : endpt = qn := hendnil hrest
        rw [hec, ← hnk]
        exact hkq
      | cons k2 rest2 =>
        apply hendlast k
        rw [hrest]
        rw [hrest, List.getLast?_cons_cons] at hk
        exact hk
    · intro hor
      have hx2 : current.x + grid_size * (di : ℚ) = qn.x := by linear_combination -hdx
      have hz2 : current.z + grid_size * (dj : ℚ) = qn.z := by linear_combination -hdz
      have hstep2 : execAction ⟨current.xz, r, hor⟩ name = some ⟨qn.xz, r, hor⟩ := by
        rw [← hname2, hexec2]
        simp [Pt3.xz, hx2, hz2]
      show (execAction ⟨current.xz, r, hor⟩ name).bind (fun p2 => execList p2 acts) = _
      rw [hstep2]
      simpa using hexecIH hor

theorem execList_append (l1 l2 : List ActName) :
    ∀ p, execList p (l1 ++ l2) = (execList p l1).bind (fun p2 => execList p2 l2) := by
  induction l1 with
  | nil => intro p; simp [execList]
  | cons a l1 ih =>
    intro p
    simp only [List.cons_append, execList]
    cases execAction p a with
    | none => simp
    | some p2 => simp [ih p2]

/-- plan_horizons succeeds on the canonical horizon set, emits only tilt
actions and drives the camera horizon from a to b. -/
theorem plan_horizons_exec (a b : ℤ)
    (ha : a ∈ ([330, 0, 30, 60] : List ℤ)) (hb : b ∈ ([330, 0, 30, 60] : List ℤ)) :
    ∃ tilts, BFSController.plan_horizons a b = some tilts ∧
      (∀ x ∈ tilts, x.isTranslation = false) ∧
      ∀ (pos : Pt2) (r : ℤ), execList ⟨pos, r, a⟩ tilts = some ⟨pos, r, b⟩ := by
  fin_cases ha <;> fin_cases hb <;>
    exact ⟨_, rfl, by decide, fun pos r => rfl⟩

/-- plan_rotations emits only rotation actions and turns the heading from a
to b on the canonical rotation set. -/
theorem plan_rotations_exec (a b : ℤ)
    (ha : a ∈ ([0, 90, 180, 270] : List ℤ)) (hb : b ∈ ([0, 90, 180, 270] : List ℤ)) :
    (∀ x ∈ BFSController.plan_rotations a b, x.isTranslation = false) ∧
    ∀ (pos : Pt2) (h : ℤ),
      execList ⟨pos, a, h⟩ (BFSController.plan_rotations a b) = some ⟨pos, b, h⟩ := by
  fin_cases ha <;> fin_cases hb <;>
    exact ⟨by with_unfolding_all decide, fun pos h => by with_unfolding_all exact rfl⟩

/-- C3 (confirmed): for a lattice-aligned grid with duplicate-free keys,
canonical poses, and a path of keys produced by the external shortest-path
call (a chain of graph edges from A's key to B's key), shortest_plan
succeeds and the produced actions, executed step by step from A's pose,
end exactly at B's position with B's heading and camera horizon; all
translation actions precede all rotation and tilt actions. -/
theorem C3_shortest_plan_correct (grid : List Pt3) (path : List Key3) (A B : AgentPose)
    (hlat : ∀ p ∈ grid, LatticeXZ p)
    (hkeys : (grid.map BFSController.key_for_point).Nodup)
    (hA : A.position ∈ grid) (hB : B.position ∈ grid)
    (hrA : A.rotationY ∈ ([0, 90, 180, 270] : List ℤ))
    (hrB : B.rotationY ∈ ([0, 90, 180, 270] : List ℤ))
    (hhA : A.cameraHorizon ∈ ([330, 0, 30, 60] : List ℤ))
    (hhB : B.cameraHorizon ∈ ([330, 0, 30, 60] : List ℤ))
    (hhead : path.head? = some (BFSController.key_for_point A.position))
    (hlast : path.getLast? = some (BFSController.key_for_point B.position))
    (hchain : List.Chain' (BFSController.edgeKey grid) path) :
    ∃ acts, BFSController.shortest_plan grid path A B = some acts ∧
      execList A.toExec acts = some B.toExec ∧
      ∃ l1 l2, acts = l1 ++ l2 ∧ (∀ a ∈ l1, a.isTranslation = true) ∧
        (∀ a ∈ l2, a.isTranslation = false) := by
  have hinj := List.inj_on_of_nodup_map hkeys
  cases hpath : path with
  | nil =>
    rw [hpath] at hhead
    simp at hhead
  | cons k0 rest =>
    rw [hpath] at hhead hlast hchain
    have hk0 : k0 = BFSController.key_for_point A.position := by simpa using hhead
    subst hk0
    have hchain2 : List.Chain (BFSController.edgeKey grid)
        (BFSController.key_for_point A.position) rest := hchain
    obtain ⟨transActs, endpt, hloop, hallt, hendg, hendnil, hendlast, hexecT⟩ :=
      planLoop_spec grid hlat hkeys A.rotationY hrA rest A.position hA hchain2
    have hendB : endpt = B.position := by
      cases hrest : rest with
      | nil =>
        rw [hrest] at hlast
        have hABk : BFSController.key_for_point A.position =
            BFSController.key_for_point B.position := by simpa using hlast
        have hAB : A.position = B.position := hinj hA hB hABk
        rw [hendnil hrest, hAB]
      | cons k2 r2 =>
        apply hinj hendg hB
        apply hendlast
        rw [hrest]
        rw [hrest, List.getLast?_cons_cons] at hlast
        exact hlast
    obtain ⟨tilts, hhor, htiltsf, hexecH⟩ :=
      plan_horizons_exec A.cameraHorizon B.cameraHorizon hhA hhB
    obtain ⟨hrotf, hexecR⟩ := plan_rotations_exec A.rotationY B.rotationY hrA hrB
    have hplan : BFSController.shortest_plan grid
        (BFSController.key_for_point A.position :: rest) A B =
        some (transActs ++ tilts ++ BFSController.plan_rotations A.rotationY B.rotationY) := by
      simp only [BFSController.shortest_plan, List.tail_cons, hloop, hhor]
    refine ⟨_, hplan, ?_,
      transActs, tilts ++ BFSController.plan_rotations A.rotationY B.rotationY,
      List.append_assoc transActs tilts
        (BFSController.plan_rotations A.rotationY B.rotationY), hallt, ?_⟩
    · show execList A.toExec
        ((transActs ++ tilts) ++ BFSController.plan_rotations A.rotationY B.rotationY) =
        some B.toExec
      rw [execList_append, execList_append]
      have h1 := hexecT A.cameraHorizon
      rw [hendB] at h1
      rw [show A.toExec = (⟨A.position.xz, A.rotationY, A.cameraHorizon⟩ : ExecPose) from rfl,
        h1]
      simp only [Option.some_bind]
      rw [hexecH B.position.xz A.rotationY]
      simp only [Option.some_bind]
      rw [hexecR B.position.xz B.cameraHorizon]
      rfl
    · intro a ha
      rcases List.mem_append.mp ha with ha | ha
      · exact htiltsf a ha
      · exact hrotf a ha

/-- Witness for C3: on the two-point grid (0,0,0), (1/4,0,0) with the
shortest path between their keys, the plan from pose (origin, heading 0,
horizon 0) to pose ((1/4,0,0), heading 90, horizon 30) succeeds, executes
to the target pose exactly, and puts all translations first. -/
theorem C3_witness :
    ∃ acts, BFSController.shortest_plan
        [⟨0, 0, 0⟩, ⟨1/4, 0, 0⟩]
        [BFSController.key_for_point ⟨0, 0, 0⟩, BFSController.key_for_point ⟨1/4, 0, 0⟩]
        ⟨⟨0, 0, 0⟩, 0, 0⟩ ⟨⟨1/4, 0, 0⟩, 90, 30⟩ = some acts ∧
      execList (AgentPose.toExec ⟨⟨0, 0, 0⟩, 0, 0⟩) acts =
        some (AgentPose.toExec ⟨⟨1/4, 0, 0⟩, 90, 30⟩) ∧
      ∃ l1 l2, acts = l1 ++ l2 ∧ (∀ a ∈ l1, a.isTranslation = true) ∧
        (∀ a ∈ l2, a.isTranslation = false) :=
  C3_shortest_plan_correct [⟨0, 0, 0⟩, ⟨1/4, 0, 0⟩]
    [BFSController.key_for_point ⟨0, 0, 0⟩, BFSController.key_for_point ⟨1/4, 0, 0⟩]
    ⟨⟨0, 0, 0⟩, 0, 0⟩ ⟨⟨1/4, 0, 0⟩, 90, 30⟩
    (by with_unfolding_all decide)
    (by with_unfolding_all decide)
    (by with_unfolding_all decide)
    (by with_unfolding_all decide)
    (by decide) (by decide) (by decide) (by decide)
    rfl
    rfl
    (List.chain'_pair.mpr
      ⟨⟨0, 0, 0⟩, by with_unfolding_all decide, ⟨1/4, 0, 0⟩, by with_unfolding_all decide,
        rfl, rfl, by with_unfolding_all decide⟩)
